import Mathlib

/-!
Verification development for the Polymer ECS core
(entity manager + hierarchical transform system).

The data model and operations below are a shallow embedding of the C++
source: entities are 64-bit identifiers (modelled as `Nat`, with `% 2^64`
where the counter can overflow), `std::unordered_map` tables are modelled
as association lists observed only through key lookup (the code never
iterates a table), `operator[]`'s default-inserting behaviour is modelled
explicitly (`ensureSg`), exceptions become `Except String`, and the two
recursive tree walks (`recalculate_world_transform`, `destroy_recursive`)
take an explicit fuel parameter: `none` models non-termination of the C++
recursion (e.g. on a cyclic scene graph).
-/

/-- An Entity is a uniquely identifiable object in the Polymer runtime
(`using entity = uint64_t`). -/
abbrev entity := Nat

/-- `constexpr entity kInvalidEntity = 0`. -/
def kInvalidEntity : entity := 0

/-- Modelled from the spec: `polymer::Pose` lives in math-core.hpp, which is
not part of the sources; the spec says pose composition is the standard
rigid-transform composition, non-commutative and associative.  We model poses
as a free composition structure: `Pose.mul a b` stands for the C++ expression
`a * b`, and distinct atoms stand for distinct authored poses.  Every equation
proved about such free compositions holds under any interpretation of `mul`. -/
inductive Pose where
  | base (n : Nat)
  | mul (a b : Pose)
deriving DecidableEq, Repr

instance : Inhabited Pose := ⟨Pose.base 0⟩

/-- Modelled from the spec: `polymer::float3` (math-core.hpp, not in the
sources).  Scales are only stored and copied by the core, never computed
with, so the three components are opaque scalar tokens. -/
structure float3 where
  x : Int
  y : Int
  z : Int
deriving DecidableEq, Repr

instance : Inhabited float3 := ⟨⟨0, 0, 0⟩⟩

/-! ### Association-list maps

`std::unordered_map<entity, T>` modelled as an association list with unique
keys, observed only through `findk`.  `setk` is `map[k] = v`
(replace-or-insert), `erasek` is `map.erase(k)`. -/

def findk {α : Type} : List (entity × α) → entity → Option α
  | [], _ => none
  | (k, v) :: rest, x => if k = x then some v else findk rest x

def setk {α : Type} : List (entity × α) → entity → α → List (entity × α)
  | [], x, v => [(x, v)]
  | (k, w) :: rest, x, v => if k = x then (k, v) :: rest else (k, w) :: setk rest x v

def erasek {α : Type} : List (entity × α) → entity → List (entity × α)
  | [], _ => []
  | (k, w) :: rest, x => if k = x then erasek rest x else (k, w) :: erasek rest x

/-! ### Components (transform system) -/

/-- `struct scene_graph_component : public component` — entity tag from the
`component` base class, local pose, local scale, parent reference
(default `kInvalidEntity`) and ordered children. -/
structure scene_graph_component where
  e : entity
  local_pose : Pose
  local_scale : float3
  parent : entity
  children : List entity
deriving DecidableEq, Repr

/-- The value produced by `scene_graph_component()`'s default constructor,
as inserted by `std::unordered_map::operator[]` on a missing key: the
`component` base defaults to `kInvalidEntity`, `parent` defaults to
`kInvalidEntity`, `children` is empty, pose and scale are default-constructed. -/
def dfl_scene_graph : scene_graph_component :=
  { e := kInvalidEntity
    local_pose := default
    local_scale := default
    parent := kInvalidEntity
    children := [] }

/-- `struct world_transform_component : public component`. -/
structure world_transform_component where
  e : entity
  world_pose : Pose
deriving DecidableEq, Repr

/-- The transform system's two per-entity tables
(`scene_graph_transforms`, `world_transforms`). -/
structure transform_system where
  scene_graph_transforms : List (entity × scene_graph_component)
  world_transforms : List (entity × world_transform_component)
deriving DecidableEq, Repr

namespace transform_system

def empty : transform_system := ⟨[], []⟩

/-- Lookup in the scene-graph table. -/
def getSg (s : transform_system) (x : entity) : Option scene_graph_component :=
  findk s.scene_graph_transforms x

/-- The value read through `scene_graph_transforms[x]`: the stored record,
or the default-constructed record that `operator[]` would insert. -/
def sgOr (s : transform_system) (x : entity) : scene_graph_component :=
  (getSg s x).getD dfl_scene_graph

/-- The table after `scene_graph_transforms[x]` has been evaluated:
`operator[]` default-inserts a `scene_graph_component()` on a missing key. -/
def ensureSg (s : transform_system) (x : entity) : transform_system :=
  match getSg s x with
  | some _ => s
  | none => { s with scene_graph_transforms := setk s.scene_graph_transforms x dfl_scene_graph }

/-- `scene_graph_transforms[x] = n` on a key known to be present (or fresh). -/
def setSg (s : transform_system) (x : entity) (n : scene_graph_component) : transform_system :=
  { s with scene_graph_transforms := setk s.scene_graph_transforms x n }

/-- `world_transforms[x].world_pose = p`: `operator[]` default-inserts
`world_transform_component()` (entity tag `kInvalidEntity`) on a missing key,
then the pose field is assigned. -/
def writeWorld (s : transform_system) (x : entity) (p : Pose) : transform_system :=
  let tag := match findk s.world_transforms x with
    | some w => w.e
    | none => kInvalidEntity
  { s with world_transforms := setk s.world_transforms x { e := tag, world_pose := p } }

/-- The observable world pose of an entity. -/
def wPose (s : transform_system) (x : entity) : Option Pose :=
  (findk s.world_transforms x).map world_transform_component.world_pose

/-- Lookup in the world-transform table. -/
def getWt (s : transform_system) (x : entity) : Option world_transform_component :=
  findk s.world_transforms x

end transform_system

/-- Sequencing of a state-transforming step over a list: the shape of the
`for (auto & c : node.children) f(c);` loops, which thread the (possibly
diverging) recursive call through the table state. -/
def stepList (g : transform_system → entity → Option transform_system) :
    transform_system → List entity → Option transform_system
  | s, [] => some s
  | s, c :: rest =>
    match g s c with
    | none => none
    | some t => stepList g t rest

namespace transform_system

/-- `transform_system::recalculate_world_transform` — depth-first: write this
node's world pose (local pose composed with the parent's **local** pose when a
parent exists, the local pose itself otherwise), then recurse into every
child.  Fuel bounds the recursion depth; `none` models divergence of the C++
recursion. -/
def recalculate_world_transform : Nat → transform_system → entity → Option transform_system
  | 0, _, _ => none
  | f+1, s, child =>
    let node := sgOr s child
    let s1 := ensureSg s child
    let s2 :=
      if node.parent = kInvalidEntity then
        writeWorld s1 child node.local_pose
      else
        writeWorld (ensureSg s1 node.parent) child
          (Pose.mul node.local_pose (sgOr s node.parent).local_pose)
    stepList (fun t c => recalculate_world_transform f t c) s2 node.children

/-- `transform_system::destroy_recursive` — recursively destroy the children,
then erase this node's world-transform record and scene-graph record. -/
def destroy_recursive : Nat → transform_system → entity → Option transform_system
  | 0, _, _ => none
  | f+1, s, child =>
    let node := sgOr s child
    let s1 := ensureSg s child
    match stepList (fun t c => destroy_recursive f t c) s1 node.children with
    | none => none
    | some s2 =>
      some { scene_graph_transforms := erasek s2.scene_graph_transforms child
             world_transforms := erasek s2.world_transforms child }

/-- `transform_system::create(entity, Pose, float3)` — overwrites the entity's
scene-graph record with a fresh one carrying the given pose and scale (parent
and children reset), overwrites the world record, then recomputes. -/
def create (fuel : Nat) (s : transform_system) (e : entity)
    (local_pose : Pose) (local_scale : float3) : Option (transform_system × Bool) :=
  let s1 := setSg s e
    { e := e, local_pose := local_pose, local_scale := local_scale
      parent := kInvalidEntity, children := [] }
  let s2 := { s1 with
    world_transforms := setk s1.world_transforms e { e := e, world_pose := default } }
  (recalculate_world_transform fuel s2 e).map (fun t => (t, true))

/-- `transform_system::has_transform`. -/
def has_transform (s : transform_system) (e : entity) : Bool :=
  (findk s.scene_graph_transforms e).isSome

/-- `transform_system::add_child` — after the four precondition checks,
appends the child to the parent's children, sets the child's parent
reference, and recomputes the world transform of the parent subtree. -/
def add_child (fuel : Nat) (s : transform_system) (parent child : entity) :
    Option (transform_system × Except String Bool) :=
  if parent = kInvalidEntity then some (s, Except.error "parent was invalid")
  else if child = kInvalidEntity then some (s, Except.error "child was invalid")
  else if has_transform s parent = false then
    some (s, Except.error "parent has no transform component")
  else if has_transform s child = false then
    some (s, Except.error "child has no transform component")
  else
    let s1 := setSg s parent
      { sgOr s parent with children := (sgOr s parent).children ++ [child] }
    let s2 := setSg s1 child { sgOr s1 child with parent := parent }
    (recalculate_world_transform fuel s2 parent).map (fun t => (t, Except.ok true))

/-- `transform_system::get_local_transform`. -/
def get_local_transform (s : transform_system) (e : entity) : Option scene_graph_component :=
  if e = kInvalidEntity then none else findk s.scene_graph_transforms e

/-- `transform_system::get_world_transform`. -/
def get_world_transform (s : transform_system) (e : entity) : Option world_transform_component :=
  if e = kInvalidEntity then none else findk s.world_transforms e

/-- `transform_system::get_parent`. -/
def get_parent (s : transform_system) (child : entity) : entity :=
  if child = kInvalidEntity then kInvalidEntity
  else match findk s.scene_graph_transforms child with
    | some n => if n.parent ≠ kInvalidEntity then n.parent else kInvalidEntity
    | none => kInvalidEntity

/-- `transform_system::remove_parent` — `scene_graph_transforms[child]` is read
through `operator[]` (default-inserting); if the child has a parent, every
occurrence of the child is erased from the parent's children
(erase–remove idiom), the parent reference is cleared, and the child's
subtree is recomputed. -/
def remove_parent (fuel : Nat) (s : transform_system) (child : entity) :
    Option transform_system :=
  let node := sgOr s child
  let s1 := ensureSg s child
  if node.parent = kInvalidEntity then some s1
  else
    let s2 := ensureSg s1 node.parent
    let s3 := setSg s2 node.parent
      { sgOr s2 node.parent with
        children := (sgOr s2 node.parent).children.filter (fun x => x ≠ child) }
    let s4 := setSg s3 child { sgOr s3 child with parent := kInvalidEntity }
    recalculate_world_transform fuel s4 child

/-- `transform_system::destroy` — precondition checks, then `destroy_recursive`. -/
def destroy (fuel : Nat) (s : transform_system) (e : entity) :
    Option (transform_system × Except String Unit) :=
  if e = kInvalidEntity then some (s, Except.error "parent was invalid")
  else if has_transform s e = false then
    some (s, Except.error "no component exists for this entity")
  else (destroy_recursive fuel s e).map (fun t => (t, Except.ok ()))

end transform_system

/-! ### Type identities and the entity manager -/

/-- `poly_typeid`: a process-wide stable handle for a runtime type
(`POLYMER_SETUP_TYPEID`).  Only identity matters; we assign distinct
constants to the distinct types of the program. -/
abbrev poly_typeid := Nat

def physics_component_typeid : poly_typeid := 1
def render_component_typeid : poly_typeid := 2
def scene_graph_component_typeid : poly_typeid := 3
def world_transform_component_typeid : poly_typeid := 4

/-- A `base_system *` pointer value; `0` is the null pointer. -/
abbrev system_ptr := Nat

/-- `struct entity_manager` — the advisory component-type-to-system-type map,
the auto-incrementing 64-bit entity counter, and the owned systems keyed by
system type identity. -/
structure entity_manager where
  system_type_map : List (poly_typeid × poly_typeid)
  entity_counter : Nat
  systems : List (poly_typeid × system_ptr)
deriving DecidableEq, Repr

namespace entity_manager

def init : entity_manager := ⟨[], 0, []⟩

/-- `entity_manager::create` — `const entity e = ++entity_counter; return e;`
on a `uint64_t` counter, so the increment wraps modulo `2^64`.  Returns the
new id and the updated manager. -/
def create (m : entity_manager) : entity × entity_manager :=
  let e := (m.entity_counter + 1) % 2 ^ 64
  (e, { m with entity_counter := e })

/-- `entity_manager::register_system_for_type` —
`system_type_map[def_type] = system_type`. -/
def register_system_for_type (m : entity_manager)
    (system_type def_type : poly_typeid) : entity_manager :=
  { m with system_type_map := setk m.system_type_map def_type system_type }

/-- `entity_manager::add_system` — a null system pointer is a no-op; a system
type already present keeps its first registration (`emplace` only when
`find` misses). -/
def add_system (m : entity_manager) (system_type : poly_typeid)
    (system : system_ptr) : entity_manager :=
  if system = 0 then m
  else match findk m.systems system_type with
    | some _ => m
    | none => { m with systems := m.systems ++ [(system_type, system)] }

/-- The state of the manager after `n` successive `create()` calls,
starting from a freshly constructed manager. -/
def after_creates : Nat → entity_manager
  | 0 => init
  | n+1 => ((after_creates n).create).2

/-- The id returned by the `n`-th `create()` call (`n ≥ 1`). -/
def returned_id (n : Nat) : entity :=
  ((after_creates (n - 1)).create).1

end entity_manager

/-! ### The generic data-component systems -/

/-- `struct physics_component : public component` — entity tag plus three
scalar fields (stored and copied only, never computed with). -/
structure physics_component where
  e : entity
  value1 : Int
  value2 : Int
  value3 : Int
deriving DecidableEq, Repr

/-- `struct render_component : public component`. -/
structure render_component where
  e : entity
  value1 : Int
  value2 : Int
  value3 : Int
deriving DecidableEq, Repr

/-- `struct ex_system_one` — owns the physics-component table. -/
structure ex_system_one where
  components : List (entity × physics_component)
deriving DecidableEq, Repr

namespace ex_system_one

/-- `ex_system_one::create(entity, poly_typeid, void *)` — rejects with
`false` when the tag is not the physics-component type; otherwise stores a
copy of the payload under the entity key (the freshly constructed
`physics_component(e)` is wholly overwritten by `*data`, entity tag
included, before being moved into the table). -/
def create (s : ex_system_one) (e : entity) (hash : poly_typeid)
    (data : physics_component) : ex_system_one × Bool :=
  if hash ≠ physics_component_typeid then (s, false)
  else ({ components := setk s.components e data }, true)

end ex_system_one

/-- `struct ex_system_two` — owns the render-component table. -/
structure ex_system_two where
  components : List (entity × render_component)
deriving DecidableEq, Repr

namespace ex_system_two

/-- `ex_system_two::create(entity, poly_typeid, void *)`. -/
def create (s : ex_system_two) (e : entity) (hash : poly_typeid)
    (data : render_component) : ex_system_two × Bool :=
  if hash ≠ render_component_typeid then (s, false)
  else ({ components := setk s.components e data }, true)

end ex_system_two

/-- `transform_system::create(entity e, poly_typeid hash, void * data)
override final { return true; }` — the transform system's type-erased create
ignores the tag and the payload, stores nothing, and returns `true`
unconditionally. -/
def transform_system.create_type_erased (s : transform_system) (e : entity)
    (hash : poly_typeid) : transform_system × Bool :=
  (s, true)

/-! ### Derived notions used to state the claims -/

namespace transform_system

/-- The world pose that one execution of the body of
`recalculate_world_transform` writes for entity `x`: the local pose composed
with the parent's **local** pose when a parent reference is set, the local
pose alone otherwise (all fields read through the default-inserting
`operator[]` view `sgOr`). -/
def ruleVal (s : transform_system) (x : entity) : Pose :=
  if (sgOr s x).parent = kInvalidEntity then (sgOr s x).local_pose
  else Pose.mul (sgOr s x).local_pose (sgOr s (sgOr s x).parent).local_pose

/-- The children list an entity's scene-graph record currently holds
(empty for a missing record). -/
def childrenOf (s : transform_system) (x : entity) : List entity :=
  (sgOr s x).children

/-- Transitive reachability along children edges: `reaches s e d` means `d`
is `e` itself or a transitive descendant of `e` in state `s`. -/
inductive reaches (s : transform_system) : entity → entity → Prop
  | refl (e : entity) : reaches s e e
  | step {e c d : entity} : c ∈ childrenOf s e → reaches s c d → reaches s e d

/-- Parent/child mutual consistency on record-bearing entities:
`child ∈ parent.children ⟺ child.parent == parent`. -/
def consistent (s : transform_system) : Prop :=
  ∀ p c pn cn, getSg s p = some pn → getSg s c = some cn →
    (c ∈ pn.children ↔ cn.parent = p)

/-- One public transform-system call. -/
inductive sys_op where
  | create_op (e : entity) (local_pose : Pose) (local_scale : float3)
  | add_child_op (parent child : entity)
  | remove_parent_op (child : entity)
  | destroy_op (e : entity)

/-- Execute one call against a state.  A call that throws leaves the tables
as they were (the exception propagates to the caller); `none` models a call
whose internal recursion never terminates, so no resulting state exists. -/
def apply_op (fuel : Nat) (s : transform_system) : sys_op → Option transform_system
  | .create_op e p sc => (create fuel s e p sc).map Prod.fst
  | .add_child_op parent child => (add_child fuel s parent child).map Prod.fst
  | .remove_parent_op child => remove_parent fuel s child
  | .destroy_op e => (destroy fuel s e).map Prod.fst

/-- States reachable from the empty system by any sequence of calls. -/
inductive reachable : transform_system → Prop
  | init : reachable transform_system.empty
  | step {s s' : transform_system} (fuel : Nat) (o : sys_op) :
      reachable s → apply_op fuel s o = some s' → reachable s'

/-- States reachable from the empty system by disciplined call sequences:
`create` only on a nonzero entity that has no scene-graph record and occurs
in no children list, `add_child` only when the child currently has no
parent, `remove_parent` only on a nonzero entity, and `destroy` only on an
entity that currently has no parent. -/
inductive reachableD : transform_system → Prop
  | init : reachableD transform_system.empty
  | create_step {s s' : transform_system} (fuel : Nat) (e : entity) (p : Pose) (sc : float3) :
      reachableD s → e ≠ kInvalidEntity → getSg s e = none →
      (∀ q qn, getSg s q = some qn → e ∉ qn.children) →
      apply_op fuel s (.create_op e p sc) = some s' → reachableD s'
  | add_child_step {s s' : transform_system} (fuel : Nat) (parent child : entity) :
      reachableD s → get_parent s child = kInvalidEntity →
      apply_op fuel s (.add_child_op parent child) = some s' → reachableD s'
  | remove_parent_step {s s' : transform_system} (fuel : Nat) (child : entity) :
      reachableD s → child ≠ kInvalidEntity →
      apply_op fuel s (.remove_parent_op child) = some s' → reachableD s'
  | destroy_step {s s' : transform_system} (fuel : Nat) (e : entity) :
      reachableD s → get_parent s e = kInvalidEntity →
      apply_op fuel s (.destroy_op e) = some s' → reachableD s'

/-- The inductive strengthening of `consistent` maintained by disciplined
call sequences: mutual parent/child consistency, parent references point to
record-bearing entities, children entries are record-bearing, and the
reserved invalid entity has no record. -/
def linkInv (s : transform_system) : Prop :=
  consistent s ∧
  (∀ c cn, getSg s c = some cn → cn.parent ≠ kInvalidEntity →
    (getSg s cn.parent).isSome = true) ∧
  (∀ p pn, getSg s p = some pn → ∀ c ∈ pn.children, (getSg s c).isSome = true) ∧
  getSg s kInvalidEntity = none

/-- Table evolution produced by `recalculate_world_transform` on the
scene-graph table: an existing record is untouched, a missing record either
stays missing or is default-inserted by `operator[]`. -/
def sgEvolve (s t : transform_system) : Prop :=
  ∀ x, getSg t x = getSg s x ∨ (getSg s x = none ∧ getSg t x = some dfl_scene_graph)

/-- Scene-graph lookups only shrink from `s` to `t`: every entity's record
is unchanged or gone.  This is how the scene-graph table of a state at a
`destroy_recursive` call boundary relates to the pre-state. -/
def sgShrink (s t : transform_system) : Prop :=
  ∀ x, getSg t x = getSg s x ∨ getSg t x = none

/-- World-transform lookups only shrink from `s` to `t`. -/
def wtShrink (s t : transform_system) : Prop :=
  ∀ x, getWt t x = getWt s x ∨ getWt t x = none

/-- Relative to the pre-state `s0`: whenever an entity that had a record in
`s0` has been erased in `t`, its entire `s0`-subtree has been erased from
both tables in `t`.  The key invariant of `destroy_recursive`. -/
def erasedClosed (s0 t : transform_system) : Prop :=
  ∀ y, getSg s0 y ≠ none → getSg t y = none →
    ∀ d, reaches s0 y d → getSg t d = none ∧ getWt t d = none

/-- The state after the non-recursive part of one
`recalculate_world_transform` body: the `operator[]` accesses and the
world-pose assignment, before the loop over the children.
`recalculate_world_transform (f+1) s child` is definitionally
`stepList (recalculate_world_transform f) (recalcWrite s child)
(sgOr s child).children`. -/
def recalcWrite (s : transform_system) (child : entity) : transform_system :=
  if (sgOr s child).parent = kInvalidEntity then
    writeWorld (ensureSg s child) child (sgOr s child).local_pose
  else
    writeWorld (ensureSg (ensureSg s child) (sgOr s child).parent) child
      (Pose.mul (sgOr s child).local_pose (sgOr s (sgOr s child).parent).local_pose)

end transform_system

/-! ### Concrete executions used as evidence

`runOps` executes a call sequence; the states below are small concrete
scenes used to exhibit behaviours of the operations. -/

/-- Run a sequence of transform-system calls, stopping on divergence. -/
def runOps (fuel : Nat) : transform_system → List transform_system.sys_op →
    Option transform_system
  | s, [] => some s
  | s, o :: os =>
    match transform_system.apply_op fuel s o with
    | none => none
    | some t => runOps fuel t os

/-- The reparenting sequence: entity 3 is attached to 1, then to 2,
without being detached first. -/
def reparentOps : List transform_system.sys_op :=
  [ .create_op 1 (Pose.base 1) ⟨0, 0, 0⟩
  , .create_op 2 (Pose.base 2) ⟨0, 0, 0⟩
  , .create_op 3 (Pose.base 3) ⟨0, 0, 0⟩
  , .add_child_op 1 3
  , .add_child_op 2 3 ]

/-- The state reached by the reparenting sequence. -/
def reparentState : transform_system :=
  (runOps 10 transform_system.empty reparentOps).getD transform_system.empty

/-- A two-node scene: root 1 (local pose `base 10`) with child 2
(local pose `base 20`). -/
def exTree : transform_system :=
  (runOps 10 transform_system.empty
    [ .create_op 1 (Pose.base 10) ⟨0, 0, 0⟩
    , .create_op 2 (Pose.base 20) ⟨0, 0, 0⟩
    , .add_child_op 1 2 ]).getD transform_system.empty

/-- `exTree` after `destroy(1)`. -/
def exTreeDestroyed : transform_system :=
  ((transform_system.destroy 10 exTree 1).map Prod.fst).getD transform_system.empty

/-- `exTree` after a second `add_child(1, 2)`: the child is appended again. -/
def exTreeDup : transform_system :=
  ((transform_system.add_child 10 exTree 1 2).map Prod.fst).getD transform_system.empty

/-- `exTree` after `remove_parent(2)`. -/
def exTreeDetached : transform_system :=
  (transform_system.remove_parent 10 exTree 2).getD transform_system.empty

/-- The two-node scene used by the world-transform witness: root 1 and
child 2, before the child is attached. -/
def exPair : transform_system :=
  (runOps 10 transform_system.empty
    [ .create_op 1 (Pose.base 10) ⟨0, 0, 0⟩
    , .create_op 2 (Pose.base 20) ⟨0, 0, 0⟩ ]).getD transform_system.empty

/-- `exPair` after `add_child(1, 2)`. -/
def exPairLinked : transform_system :=
  ((transform_system.add_child 10 exPair 1 2).map Prod.fst).getD transform_system.empty

/-- The state reached by one disciplined `create` call. -/
def exOneCreate : transform_system :=
  (transform_system.apply_op 10 transform_system.empty
    (.create_op 1 (Pose.base 1) ⟨0, 0, 0⟩)).getD transform_system.empty

/-- A system registry holding one system registration (type 3 at pointer 7). -/
def exManager : entity_manager :=
  { system_type_map := [], entity_counter := 0, systems := [(3, 7)] }

/-! ## Theorems

First the association-list map laws, then the behaviour of the scene-graph
state primitives, then the specifications of the two recursive walks, the
link invariant, and finally the claims. -/

theorem findk_setk_self {α : Type} (m : List (entity × α)) (x : entity) (v : α) :
    findk (setk m x v) x = some v := by
  induction m with
  | nil => simp [setk, findk]
  | cons hd tl ih =>
    obtain ⟨k, w⟩ := hd
    by_cases h : k = x
    · simp [setk, findk, h]
    · simp [setk, findk, h, ih]

theorem findk_setk_ne {α : Type} (m : List (entity × α)) (x y : entity) (v : α)
    (h : x ≠ y) : findk (setk m x v) y = findk m y := by
  induction m with
  | nil => simp [setk, findk, h]
  | cons hd tl ih =>
    obtain ⟨k, w⟩ := hd
    by_cases hk : k = x
    · subst hk
      simp [setk, findk, h]
    · simp [setk, findk, hk, ih]

theorem findk_erasek_self {α : Type} (m : List (entity × α)) (x : entity) :
    findk (erasek m x) x = none := by
  induction m with
  | nil => simp [erasek, findk]
  | cons hd tl ih =>
    obtain ⟨k, w⟩ := hd
    by_cases h : k = x
    · simp [erasek, h, ih]
    · simp [erasek, findk, h, ih]

theorem findk_erasek_ne {α : Type} (m : List (entity × α)) (x y : entity)
    (h : x ≠ y) : findk (erasek m x) y = findk m y := by
  induction m with
  | nil => simp [erasek]
  | cons hd tl ih =>
    obtain ⟨k, w⟩ := hd
    by_cases hk : k = x
    · subst hk
      simp [erasek, findk, h, ih]
    · simp [erasek, findk, hk, ih]

namespace transform_system

/-! ### State primitives -/

theorem getSg_setSg_self (s : transform_system) (x : entity) (n : scene_graph_component) :
    getSg (setSg s x n) x = some n := by
  simp [getSg, setSg, findk_setk_self]

theorem getSg_setSg_ne (s : transform_system) (x y : entity) (n : scene_graph_component)
    (h : x ≠ y) : getSg (setSg s x n) y = getSg s y := by
  simp [getSg, setSg, findk_setk_ne _ _ _ _ h]

theorem wt_setSg (s : transform_system) (x : entity) (n : scene_graph_component) :
    (setSg s x n).world_transforms = s.world_transforms := rfl

theorem ensureSg_of_some (s : transform_system) (x : entity)
    (h : (getSg s x).isSome = true) : ensureSg s x = s := by
  unfold ensureSg
  cases hx : getSg s x with
  | none => rw [hx] at h; simp at h
  | some n => rfl

theorem getSg_ensureSg_self (s : transform_system) (x : entity) :
    getSg (ensureSg s x) x = some (sgOr s x) := by
  unfold ensureSg sgOr
  cases hx : getSg s x with
  | none => simpa [getSg] using findk_setk_self s.scene_graph_transforms x dfl_scene_graph
  | some n => simp [hx]

theorem getSg_ensureSg_ne (s : transform_system) (x y : entity) (h : x ≠ y) :
    getSg (ensureSg s x) y = getSg s y := by
  unfold ensureSg
  cases hx : getSg s x with
  | none => simpa [getSg] using findk_setk_ne s.scene_graph_transforms x y dfl_scene_graph h
  | some n => rfl

theorem wt_ensureSg (s : transform_system) (x : entity) :
    (ensureSg s x).world_transforms = s.world_transforms := by
  unfold ensureSg
  cases getSg s x <;> rfl

theorem sgOr_ensureSg (s : transform_system) (x y : entity) :
    sgOr (ensureSg s x) y = sgOr s y := by
  by_cases h : x = y
  · subst h
    rw [sgOr, getSg_ensureSg_self]
    rfl
  · rw [sgOr, getSg_ensureSg_ne s x y h, sgOr]

theorem getSg_writeWorld (s : transform_system) (x y : entity) (p : Pose) :
    getSg (writeWorld s x p) y = getSg s y := rfl

theorem sgt_writeWorld (s : transform_system) (x : entity) (p : Pose) :
    (writeWorld s x p).scene_graph_transforms = s.scene_graph_transforms := rfl

theorem wPose_writeWorld_self (s : transform_system) (x : entity) (p : Pose) :
    wPose (writeWorld s x p) x = some p := by
  unfold wPose writeWorld
  simp [findk_setk_self]

theorem wPose_writeWorld_ne (s : transform_system) (x y : entity) (p : Pose)
    (h : y ≠ x) : wPose (writeWorld s x p) y = wPose s y := by
  unfold wPose writeWorld
  simp [findk_setk_ne _ _ _ _ (Ne.symm h)]

theorem wPose_ensureSg (s : transform_system) (x y : entity) :
    wPose (ensureSg s x) y = wPose s y := by
  unfold wPose
  rw [wt_ensureSg]

theorem wPose_setSg (s : transform_system) (x : entity) (n : scene_graph_component)
    (y : entity) : wPose (setSg s x n) y = wPose s y := rfl

/-! ### `sgEvolve` algebra -/

theorem sgEvolve_refl (s : transform_system) : sgEvolve s s := fun _ => Or.inl rfl

theorem sgEvolve_trans {s t u : transform_system} (h1 : sgEvolve s t)
    (h2 : sgEvolve t u) : sgEvolve s u := by
  intro x
  rcases h2 x with h | ⟨ht, hu⟩
  · rcases h1 x with h' | ⟨hs, ht'⟩
    · exact Or.inl (h.trans h')
    · exact Or.inr ⟨hs, h.trans ht'⟩
  · rcases h1 x with h' | ⟨hs, ht'⟩
    · exact Or.inr ⟨h' ▸ ht, hu⟩
    · rw [ht'] at ht; cases ht
  
theorem sgEvolve.sgOr_eq {s t : transform_system} (h : sgEvolve s t) (x : entity) :
    sgOr t x = sgOr s x := by
  rcases h x with h' | ⟨hs, ht⟩
  · rw [sgOr, h', sgOr]
  · rw [sgOr, ht, sgOr, hs]
    rfl

theorem sgEvolve.ruleVal_eq {s t : transform_system} (h : sgEvolve s t) (x : entity) :
    ruleVal t x = ruleVal s x := by
  unfold ruleVal
  rw [h.sgOr_eq x, h.sgOr_eq ((sgOr s x).parent)]

theorem sgEvolve.childrenOf_eq {s t : transform_system} (h : sgEvolve s t) (x : entity) :
    childrenOf t x = childrenOf s x := by
  unfold childrenOf
  rw [h.sgOr_eq x]

theorem sgEvolve_ensureSg (s : transform_system) (x : entity) :
    sgEvolve s (ensureSg s x) := by
  intro y
  by_cases h : x = y
  · subst h
    cases hx : getSg s x with
    | none =>
      refine Or.inr ⟨rfl, ?_⟩
      rw [getSg_ensureSg_self, sgOr, hx]
      rfl
    | some n =>
      rw [getSg_ensureSg_self, sgOr, hx]
      exact Or.inl rfl
  · exact Or.inl (getSg_ensureSg_ne s x y h)

theorem sgEvolve_writeWorld (s : transform_system) (x : entity) (p : Pose) :
    sgEvolve s (writeWorld s x p) := fun _ => Or.inl rfl

/-! ### The specification of `recalculate_world_transform` -/

theorem recalc_succ_eq (f : Nat) (s : transform_system) (child : entity) :
    recalculate_world_transform (f+1) s child =
      stepList (fun t c => recalculate_world_transform f t c)
        (recalcWrite s child) (sgOr s child).children := rfl

theorem recalc_zero (s : transform_system) (child : entity) :
    recalculate_world_transform 0 s child = none := rfl

theorem sgEvolve_recalcWrite (s : transform_system) (child : entity) :
    sgEvolve s (recalcWrite s child) := by
  unfold recalcWrite
  by_cases h : (sgOr s child).parent = kInvalidEntity
  · simp only [h, if_true]
    exact sgEvolve_trans (sgEvolve_ensureSg s child)
      (sgEvolve_writeWorld (ensureSg s child) child _)
  · simp only [h, if_false]
    exact sgEvolve_trans (sgEvolve_ensureSg s child)
      (sgEvolve_trans (sgEvolve_ensureSg (ensureSg s child) ((sgOr s child).parent))
        (sgEvolve_writeWorld _ child _))

theorem wPose_recalcWrite_self (s : transform_system) (child : entity) :
    wPose (recalcWrite s child) child = some (ruleVal s child) := by
  unfold recalcWrite ruleVal
  by_cases h : (sgOr s child).parent = kInvalidEntity
  · simp only [h, if_true]
    exact wPose_writeWorld_self _ child _
  · simp only [h, if_false]
    exact wPose_writeWorld_self _ child _

theorem wPose_recalcWrite_ne (s : transform_system) (child y : entity)
    (h : y ≠ child) : wPose (recalcWrite s child) y = wPose s y := by
  unfold recalcWrite
  by_cases hp : (sgOr s child).parent = kInvalidEntity
  · simp only [hp, if_true]
    rw [wPose_writeWorld_ne _ _ _ _ h, wPose_ensureSg]
  · simp only [hp, if_false]
    rw [wPose_writeWorld_ne _ _ _ _ h, wPose_ensureSg, wPose_ensureSg]

theorem stepList_recalc_spec (f : Nat)
    (IH : ∀ s e s', recalculate_world_transform f s e = some s' →
      sgEvolve s s' ∧
      (∀ x, wPose s' x = wPose s x ∨ wPose s' x = some (ruleVal s x)) ∧
      wPose s' e = some (ruleVal s e)) :
    ∀ (cs : List entity) (s s' : transform_system),
      stepList (fun t c => recalculate_world_transform f t c) s cs = some s' →
      sgEvolve s s' ∧
      (∀ x, wPose s' x = wPose s x ∨ wPose s' x = some (ruleVal s x)) ∧
      (∀ c ∈ cs, wPose s' c = some (ruleVal s c)) := by
  intro cs
  induction cs with
  | nil =>
    intro s s' h
    simp only [stepList] at h
    cases h
    exact ⟨sgEvolve_refl s, fun x => Or.inl rfl, by simp⟩
  | cons c rest ih =>
    intro s s' h
    simp only [stepList] at h
    cases hg : recalculate_world_transform f s c with
    | none => rw [hg] at h; cases h
    | some t =>
      rw [hg] at h
      obtain ⟨hev1, hch1, hself1⟩ := IH s c t hg
      obtain ⟨hev2, hch2, hall2⟩ := ih t s' h
      refine ⟨sgEvolve_trans hev1 hev2, ?_, ?_⟩
      · intro x
        rcases hch2 x with h2 | h2
        · rcases hch1 x with h1 | h1
          · exact Or.inl (h2.trans h1)
          · exact Or.inr (h2.trans h1)
        · rw [hev1.ruleVal_eq x] at h2
          exact Or.inr h2
      · intro c' hc'
        rcases List.mem_cons.mp hc' with hc' | hc'
        · subst hc'
          rcases hch2 c' with h2 | h2
          · exact h2.trans hself1
          · rw [hev1.ruleVal_eq c'] at h2
            exact h2
        · rw [← hev1.ruleVal_eq c']
          exact hall2 c' hc'

theorem recalc_spec : ∀ (f : Nat) (s : transform_system) (e : entity) (s' : transform_system),
    recalculate_world_transform f s e = some s' →
    sgEvolve s s' ∧
    (∀ x, wPose s' x = wPose s x ∨ wPose s' x = some (ruleVal s x)) ∧
    wPose s' e = some (ruleVal s e) ∧
    (∀ c ∈ childrenOf s e, wPose s' c = some (ruleVal s c)) := by
  intro f
  induction f with
  | zero => intro s e s' h; cases h
  | succ f ih =>
    intro s e s' h
    rw [recalc_succ_eq] at h
    have IH : ∀ s e s', recalculate_world_transform f s e = some s' →
        sgEvolve s s' ∧
        (∀ x, wPose s' x = wPose s x ∨ wPose s' x = some (ruleVal s x)) ∧
        wPose s' e = some (ruleVal s e) := by
      intro s0 e0 s0' h0
      obtain ⟨a, b, c, _⟩ := ih s0 e0 s0' h0
      exact ⟨a, b, c⟩
    obtain ⟨hev2, hch2, hall2⟩ := stepList_recalc_spec f IH _ _ _ h
    have hevW := sgEvolve_recalcWrite s e
    have hev : sgEvolve s s' := sgEvolve_trans hevW hev2
    have hchain : ∀ x, wPose s' x = wPose s x ∨ wPose s' x = some (ruleVal s x) := by
      intro x
      rcases hch2 x with h2 | h2
      · by_cases hx : x = e
        · subst hx
          rw [wPose_recalcWrite_self] at h2
          exact Or.inr h2
        · rw [wPose_recalcWrite_ne s e x hx] at h2
          exact Or.inl h2
      · rw [hevW.ruleVal_eq x] at h2
        exact Or.inr h2
    have hself : wPose s' e = some (ruleVal s e) := by
      rcases hch2 e with h2 | h2
      · rw [wPose_recalcWrite_self] at h2
        exact h2
      · rw [hevW.ruleVal_eq e] at h2
        exact h2
    refine ⟨hev, hchain, hself, ?_⟩
    intro c hc
    rw [← hevW.ruleVal_eq c]
    exact hall2 c hc

end transform_system

namespace transform_system

/-! ### The specification of `destroy_recursive` -/

theorem destroy_zero (s : transform_system) (child : entity) :
    destroy_recursive 0 s child = none := rfl

theorem destroy_succ_eq (f : Nat) (s : transform_system) (child : entity) :
    destroy_recursive (f+1) s child =
      (stepList (fun t c => destroy_recursive f t c)
          (ensureSg s child) (sgOr s child).children).map
        (fun s2 =>
          { scene_graph_transforms := erasek s2.scene_graph_transforms child
            world_transforms := erasek s2.world_transforms child }) := by
  show (match stepList (fun t c => destroy_recursive f t c)
      (ensureSg s child) (sgOr s child).children with
    | none => none
    | some s2 =>
      some ({ scene_graph_transforms := erasek s2.scene_graph_transforms child
              world_transforms := erasek s2.world_transforms child } : transform_system)) = _
  cases stepList (fun t c => destroy_recursive f t c)
      (ensureSg s child) (sgOr s child).children <;> rfl

theorem getSg_erased (s2 : transform_system) (child y : entity) :
    getSg { scene_graph_transforms := erasek s2.scene_graph_transforms child
            world_transforms := erasek s2.world_transforms child } y =
      if y = child then none else getSg s2 y := by
  by_cases h : y = child
  · subst h
    simpa [getSg] using findk_erasek_self s2.scene_graph_transforms y
  · simp only [h, if_false]
    simpa [getSg] using findk_erasek_ne s2.scene_graph_transforms child y
      (fun hc => h hc.symm)

theorem getWt_erased (s2 : transform_system) (child y : entity) :
    getWt { scene_graph_transforms := erasek s2.scene_graph_transforms child
            world_transforms := erasek s2.world_transforms child } y =
      if y = child then none else getWt s2 y := by
  by_cases h : y = child
  · subst h
    simpa [getWt] using findk_erasek_self s2.world_transforms y
  · simp only [h, if_false]
    simpa [getWt] using findk_erasek_ne s2.world_transforms child y
      (fun hc => h hc.symm)

theorem getWt_ensureSg (s : transform_system) (x y : entity) :
    getWt (ensureSg s x) y = getWt s y := by
  unfold getWt
  rw [wt_ensureSg]

theorem sgShrink_refl (s : transform_system) : sgShrink s s := fun _ => Or.inl rfl

theorem sgShrink_trans {s t u : transform_system} (h1 : sgShrink s t)
    (h2 : sgShrink t u) : sgShrink s u := by
  intro x
  rcases h2 x with h | h
  · rcases h1 x with h' | h'
    · exact Or.inl (h.trans h')
    · exact Or.inr (h.trans h')
  · exact Or.inr h

theorem wtShrink_refl (s : transform_system) : wtShrink s s := fun _ => Or.inl rfl

theorem wtShrink_trans {s t u : transform_system} (h1 : wtShrink s t)
    (h2 : wtShrink t u) : wtShrink s u := by
  intro x
  rcases h2 x with h | h
  · rcases h1 x with h' | h'
    · exact Or.inl (h.trans h')
    · exact Or.inr (h.trans h')
  · exact Or.inr h

theorem sgShrink_none {s t : transform_system} (h : sgShrink s t) {x : entity}
    (hx : getSg s x = none) : getSg t x = none := by
  rcases h x with h' | h'
  · rw [h', hx]
  · exact h'

theorem wtShrink_none {s t : transform_system} (h : wtShrink s t) {x : entity}
    (hx : getWt s x = none) : getWt t x = none := by
  rcases h x with h' | h'
  · rw [h', hx]
  · exact h'

theorem reaches_child {s : transform_system} {e c : entity}
    (h : c ∈ childrenOf s e) : reaches s e c :=
  reaches.step h (reaches.refl c)

theorem reaches_of_no_children {s : transform_system} {e d : entity}
    (h : childrenOf s e = []) (hr : reaches s e d) : d = e := by
  cases hr with
  | refl => rfl
  | step hc _ => rw [h] at hc; cases hc

theorem childrenOf_of_none {s : transform_system} {e : entity}
    (h : getSg s e = none) : childrenOf s e = [] := by
  unfold childrenOf sgOr
  rw [h]
  rfl

theorem stepList_destroy_spec (s0 : transform_system) (f : Nat)
    (IH : ∀ t e t', sgShrink s0 t → wtShrink s0 t → erasedClosed s0 t →
      destroy_recursive f t e = some t' →
      sgShrink s0 t' ∧ wtShrink s0 t' ∧ erasedClosed s0 t' ∧
      sgShrink t t' ∧ wtShrink t t' ∧
      (∀ d, reaches s0 e d → getSg t' d = none ∧ getWt t' d = none) ∧
      (∀ x, ¬ reaches s0 e x → getSg t' x = getSg t x ∧ getWt t' x = getWt t x)) :
    ∀ (cs : List entity) (t t' : transform_system),
      sgShrink s0 t → wtShrink s0 t → erasedClosed s0 t →
      stepList (fun u c => destroy_recursive f u c) t cs = some t' →
      sgShrink s0 t' ∧ wtShrink s0 t' ∧ erasedClosed s0 t' ∧
      sgShrink t t' ∧ wtShrink t t' ∧
      (∀ c ∈ cs, ∀ d, reaches s0 c d → getSg t' d = none ∧ getWt t' d = none) ∧
      (∀ x, (∀ c ∈ cs, ¬ reaches s0 c x) →
        getSg t' x = getSg t x ∧ getWt t' x = getWt t x) := by
  intro cs
  induction cs with
  | nil =>
    intro t t' hsg hwt hec h
    simp only [stepList] at h
    cases h
    refine ⟨hsg, hwt, hec, sgShrink_refl t, wtShrink_refl t, by simp, fun x _ => ⟨rfl, rfl⟩⟩
  | cons c rest ih =>
    intro t t' hsg hwt hec h
    simp only [stepList] at h
    cases hg : destroy_recursive f t c with
    | none => rw [hg] at h; cases h
    | some u =>
      rw [hg] at h
      obtain ⟨hsg1, hwt1, hec1, hsgtu, hwttu, hreach1, hframe1⟩ := IH t c u hsg hwt hec hg
      obtain ⟨hsg2, hwt2, hec2, hsgut, hwtut, hreach2, hframe2⟩ := ih u t' hsg1 hwt1 hec1 h
      refine ⟨hsg2, hwt2, hec2, sgShrink_trans hsgtu hsgut, wtShrink_trans hwttu hwtut,
        ?_, ?_⟩
      · intro c' hc' d hd
        rcases List.mem_cons.mp hc' with hc' | hc'
        · subst hc'
          obtain ⟨h1, h2⟩ := hreach1 d hd
          exact ⟨sgShrink_none hsgut h1, wtShrink_none hwtut h2⟩
        · exact hreach2 c' hc' d hd
      · intro x hx
        obtain ⟨h1, h2⟩ := hframe1 x (hx c (List.mem_cons_self c rest))
        obtain ⟨h3, h4⟩ := hframe2 x (fun c' hc' => hx c' (List.mem_cons_of_mem c hc'))
        exact ⟨h3.trans h1, h4.trans h2⟩

theorem destroy_rec_spec (s0 : transform_system) :
    ∀ (f : Nat) (t : transform_system) (e : entity) (t' : transform_system),
      sgShrink s0 t → wtShrink s0 t → erasedClosed s0 t →
      destroy_recursive f t e = some t' →
      sgShrink s0 t' ∧ wtShrink s0 t' ∧ erasedClosed s0 t' ∧
      sgShrink t t' ∧ wtShrink t t' ∧
      (∀ d, reaches s0 e d → getSg t' d = none ∧ getWt t' d = none) ∧
      (∀ x, ¬ reaches s0 e x → getSg t' x = getSg t x ∧ getWt t' x = getWt t x) := by
  intro f
  induction f with
  | zero => intro t e t' _ _ _ h; cases h
  | succ f ih =>
    intro t e t' hsg hwt hec h
    rw [destroy_succ_eq] at h
    cases hfold : stepList (fun u c => destroy_recursive f u c)
        (ensureSg t e) (sgOr t e).children with
    | none => rw [hfold] at h; cases h
    | some tk =>
      rw [hfold] at h
      simp only [Option.map_some'] at h
      have ht' : t' = { scene_graph_transforms := erasek tk.scene_graph_transforms e
                        world_transforms := erasek tk.world_transforms e } := by
        cases h; rfl
      cases hte : getSg t e with
      | some n =>
        -- the record exists: `operator[]` is a no-op, the children are n's.
        have hens : ensureSg t e = t := ensureSg_of_some t e (by rw [hte]; rfl)
        have hch : (sgOr t e).children = n.children := by
          unfold sgOr; rw [hte]; rfl
        rw [hens, hch] at hfold
        have hs0e : getSg s0 e = some n := by
          rcases hsg e with h' | h'
          · rw [← h', hte]
          · rw [hte] at h'; cases h'
        have hch0 : childrenOf s0 e = n.children := by
          unfold childrenOf sgOr; rw [hs0e]; rfl
        obtain ⟨hsgk, hwtk, heck, hsgtk, hwttk, hreachk, hframek⟩ :=
          stepList_destroy_spec s0 f ih n.children t tk hsg hwt hec hfold
        have hgSg : ∀ y, getSg t' y = if y = e then none else getSg tk y := by
          intro y; rw [ht']; exact getSg_erased tk e y
        have hgWt : ∀ y, getWt t' y = if y = e then none else getWt tk y := by
          intro y; rw [ht']; exact getWt_erased tk e y
        have hreach : ∀ d, reaches s0 e d → getSg t' d = none ∧ getWt t' d = none := by
          intro d hd
          cases hd with
          | refl => rw [hgSg, hgWt]; simp
          | step hc hcd =>
            rw [hch0] at hc
            obtain ⟨h1, h2⟩ := hreachk _ hc d hcd
            rw [hgSg, hgWt]
            by_cases hde : d = e
            · simp [hde]
            · simp only [hde, if_false]
              exact ⟨h1, h2⟩
        refine ⟨?_, ?_, ?_, ?_, ?_, hreach, ?_⟩
        · intro x
          rw [hgSg]
          by_cases hx : x = e
          · simp [hx]
          · simp only [hx, if_false]; exact hsgk x
        · intro x
          rw [hgWt]
          by_cases hx : x = e
          · simp [hx]
          · simp only [hx, if_false]; exact hwtk x
        · intro y hy0 hye d hrd
          by_cases hy : y = e
          · subst hy; exact hreach d hrd
          · rw [hgSg, if_neg hy] at hye
            obtain ⟨h1, h2⟩ := heck y hy0 hye d hrd
            rw [hgSg, hgWt]
            by_cases hde : d = e
            · simp [hde]
            · simp only [hde, if_false]; exact ⟨h1, h2⟩
        · intro x
          rw [hgSg]
          by_cases hx : x = e
          · simp [hx]
          · simp only [hx, if_false]; exact hsgtk x
        · intro x
          rw [hgWt]
          by_cases hx : x = e
          · simp [hx]
          · simp only [hx, if_false]; exact hwttk x
        · intro x hnx
          have hxe : x ≠ e := fun hx => hnx (hx ▸ reaches.refl x)
          have hnc : ∀ c ∈ n.children, ¬ reaches s0 c x := by
            intro c hc hr
            exact hnx (reaches.step (hch0 ▸ hc) hr)
          obtain ⟨h1, h2⟩ := hframek x hnc
          rw [hgSg, hgWt, if_neg hxe, if_neg hxe]
          exact ⟨h1, h2⟩
      | none =>
        -- no record: `operator[]` default-inserts, the children list is empty.
        have hch : (sgOr t e).children = [] := by
          unfold sgOr; rw [hte]; rfl
        rw [hch] at hfold
        simp only [stepList] at hfold
        cases hfold
        have hgSg : ∀ y, getSg t' y = if y = e then none else getSg t y := by
          intro y
          rw [ht', getSg_erased]
          by_cases hy : y = e
          · simp [hy]
          · simp only [hy, if_false]
            exact getSg_ensureSg_ne t e y (fun hh => hy hh.symm)
        have hgWt : ∀ y, getWt t' y = if y = e then none else getWt t y := by
          intro y
          rw [ht', getWt_erased]
          by_cases hy : y = e
          · simp [hy]
          · simp only [hy, if_false]
            exact getWt_ensureSg t e y
        have hreach : ∀ d, reaches s0 e d → getSg t' d = none ∧ getWt t' d = none := by
          intro d hd
          cases hs0e : getSg s0 e with
          | none =>
            have hde : d = e := reaches_of_no_children (childrenOf_of_none hs0e) hd
            subst hde
            rw [hgSg, hgWt]; simp
          | some m =>
            obtain ⟨h1, h2⟩ := hec e (by rw [hs0e]; simp) hte d hd
            rw [hgSg, hgWt]
            by_cases hde : d = e
            · simp [hde]
            · simp only [hde, if_false]; exact ⟨h1, h2⟩
        refine ⟨?_, ?_, ?_, ?_, ?_, hreach, ?_⟩
        · intro x
          rw [hgSg]
          by_cases hx : x = e
          · simp [hx]
          · simp only [hx, if_false]; exact hsg x
        · intro x
          rw [hgWt]
          by_cases hx : x = e
          · simp [hx]
          · simp only [hx, if_false]; exact hwt x
        · intro y hy0 hye d hrd
          by_cases hy : y = e
          · subst hy; exact hreach d hrd
          · rw [hgSg, if_neg hy] at hye
            obtain ⟨h1, h2⟩ := hec y hy0 hye d hrd
            rw [hgSg, hgWt]
            by_cases hde : d = e
            · simp [hde]
            · simp only [hde, if_false]; exact ⟨h1, h2⟩
        · intro x
          rw [hgSg]
          by_cases hx : x = e
          · simp [hx]
          · rw [if_neg hx]; exact Or.inl rfl
        · intro x
          rw [hgWt]
          by_cases hx : x = e
          · simp [hx]
          · rw [if_neg hx]; exact Or.inl rfl
        · intro x hnx
          have hxe : x ≠ e := fun hx => hnx (hx ▸ reaches.refl x)
          rw [hgSg, hgWt, if_neg hxe, if_neg hxe]
          exact ⟨rfl, rfl⟩

end transform_system

namespace transform_system

/-! ### More `reaches` facts -/

theorem reaches_trans {s : transform_system} {a b c : entity}
    (h1 : reaches s a b) (h2 : reaches s b c) : reaches s a c := by
  induction h1 with
  | refl => exact h2
  | step hc _ ih => exact reaches.step hc (ih h2)

theorem reaches_last_edge {s : transform_system} {a b : entity}
    (h : reaches s a b) : b = a ∨ ∃ y, reaches s a y ∧ b ∈ childrenOf s y := by
  induction h with
  | refl => exact Or.inl rfl
  | step hc hr ih =>
    rcases ih with h' | ⟨y, hy, hby⟩
    · subst h'
      exact Or.inr ⟨_, reaches.refl _, hc⟩
    · exact Or.inr ⟨y, reaches.step hc hy, hby⟩

/-! ### `recalculate_world_transform` leaves a closed scene graph untouched -/

theorem getSg_eq_of_table {s t : transform_system}
    (h : t.scene_graph_transforms = s.scene_graph_transforms) (x : entity) :
    getSg t x = getSg s x := by
  unfold getSg
  rw [h]

theorem stepList_recalc_sg_table (f : Nat)
    (IH : ∀ s e s',
      (getSg s e).isSome = true →
      (∀ c cn, getSg s c = some cn → cn.parent ≠ kInvalidEntity →
        (getSg s cn.parent).isSome = true) →
      (∀ p pn, getSg s p = some pn → ∀ c ∈ pn.children, (getSg s c).isSome = true) →
      recalculate_world_transform f s e = some s' →
      s'.scene_graph_transforms = s.scene_graph_transforms) :
    ∀ (cs : List entity) (s s' : transform_system),
      (∀ c ∈ cs, (getSg s c).isSome = true) →
      (∀ c cn, getSg s c = some cn → cn.parent ≠ kInvalidEntity →
        (getSg s cn.parent).isSome = true) →
      (∀ p pn, getSg s p = some pn → ∀ c ∈ pn.children, (getSg s c).isSome = true) →
      stepList (fun t c => recalculate_world_transform f t c) s cs = some s' →
      s'.scene_graph_transforms = s.scene_graph_transforms := by
  intro cs
  induction cs with
  | nil =>
    intro s s' _ _ _ h
    simp only [stepList] at h
    cases h
    rfl
  | cons c rest ih =>
    intro s s' hcs hb hc h
    simp only [stepList] at h
    cases hg : recalculate_world_transform f s c with
    | none => rw [hg] at h; cases h
    | some t =>
      rw [hg] at h
      have ht : t.scene_graph_transforms = s.scene_graph_transforms :=
        IH s c t (hcs c (List.mem_cons_self c rest)) hb hc hg
      have hget : ∀ x, getSg t x = getSg s x := getSg_eq_of_table ht
      have := ih t s'
        (fun c' hc' => by rw [hget]; exact hcs c' (List.mem_cons_of_mem c hc'))
        (fun c' cn' h1 h2 => by rw [hget]; exact hb c' cn' (by rw [← hget]; exact h1) h2)
        (fun p pn h1 c' hc' => by rw [hget]; exact hc p pn (by rw [← hget]; exact h1) c' hc')
        h
      rw [this, ht]

theorem recalc_sg_table : ∀ (f : Nat) (s : transform_system) (e : entity)
    (s' : transform_system),
    (getSg s e).isSome = true →
    (∀ c cn, getSg s c = some cn → cn.parent ≠ kInvalidEntity →
      (getSg s cn.parent).isSome = true) →
    (∀ p pn, getSg s p = some pn → ∀ c ∈ pn.children, (getSg s c).isSome = true) →
    recalculate_world_transform f s e = some s' →
    s'.scene_graph_transforms = s.scene_graph_transforms := by
  intro f
  induction f with
  | zero => intro s e s' _ _ _ h; cases h
  | succ f ih =>
    intro s e s' he hb hc h
    rw [recalc_succ_eq] at h
    obtain ⟨n, hn⟩ := Option.isSome_iff_exists.mp he
    have hens : ensureSg s e = s := ensureSg_of_some s e he
    have hwr : (recalcWrite s e).scene_graph_transforms = s.scene_graph_transforms := by
      unfold recalcWrite
      by_cases hp : (sgOr s e).parent = kInvalidEntity
      · rw [if_pos hp, sgt_writeWorld, hens]
      · rw [if_neg hp, sgt_writeWorld, hens]
        have hps : (getSg s (sgOr s e).parent).isSome = true := by
          refine hb e (sgOr s e) ?_ ?_
          · unfold sgOr
            rw [hn]
            rfl
          · exact hp
        rw [ensureSg_of_some s _ hps]
    have hget : ∀ x, getSg (recalcWrite s e) x = getSg s x := getSg_eq_of_table hwr
    have hchl : ∀ c ∈ (sgOr s e).children, (getSg s c).isSome = true := by
      intro c hcm
      refine hc e (sgOr s e) ?_ c hcm
      unfold sgOr
      rw [hn]
      rfl
    have := stepList_recalc_sg_table f ih (sgOr s e).children (recalcWrite s e) s'
      (fun c' hc' => by rw [hget]; exact hchl c' hc')
      (fun c' cn' h1 h2 => by rw [hget]; exact hb c' cn' (by rw [← hget]; exact h1) h2)
      (fun p pn h1 c' hc' => by rw [hget]; exact hc p pn (by rw [← hget]; exact h1) c' hc')
      h
    rw [this, hwr]

end transform_system

namespace transform_system

/-! ### Preservation of the link invariant -/

theorem linkInv_congr {s t : transform_system} (hx : ∀ x, getSg t x = getSg s x)
    (hInv : linkInv s) : linkInv t := by
  obtain ⟨hA, hB, hC, hD⟩ := hInv
  refine ⟨?_, ?_, ?_, ?_⟩
  · intro q c qn cn hq hc
    rw [hx] at hq hc
    exact hA q c qn cn hq hc
  · intro c cn hc hp
    rw [hx] at hc
    rw [hx]
    exact hB c cn hc hp
  · intro q qn hq c hcm
    rw [hx] at hq
    rw [hx]
    exact hC q qn hq c hcm
  · rw [hx]
    exact hD

theorem present_ne_invalid {s : transform_system} (hInv : linkInv s) {q : entity}
    {qn : scene_graph_component} (h : getSg s q = some qn) : q ≠ kInvalidEntity := by
  intro h0
  rw [h0, hInv.2.2.2] at h
  cases h

theorem getSg_setSg (s : transform_system) (x : entity) (n : scene_graph_component)
    (y : entity) : getSg (setSg s x n) y = if x = y then some n else getSg s y := by
  by_cases h : x = y
  · subst h
    rw [if_pos rfl]
    exact getSg_setSg_self s x n
  · rw [if_neg h]
    exact getSg_setSg_ne s x y n h

theorem has_transform_iff {s : transform_system} {x : entity} :
    has_transform s x = true ↔ (getSg s x).isSome = true := Iff.rfl

theorem create_eq (fuel : Nat) (s : transform_system) (e : entity) (p : Pose)
    (sc : float3) :
    create fuel s e p sc =
      (recalculate_world_transform fuel
        { scene_graph_transforms :=
            setk s.scene_graph_transforms e
              { e := e, local_pose := p, local_scale := sc
                parent := kInvalidEntity, children := [] }
          world_transforms :=
            setk s.world_transforms e { e := e, world_pose := default } } e).map
        (fun t => (t, true)) := rfl

theorem linkInv_create (fuel : Nat) (s : transform_system) (e : entity) (p : Pose)
    (sc : float3) (s' : transform_system) (b : Bool)
    (hInv : linkInv s) (he : e ≠ kInvalidEntity) (habs : getSg s e = none)
    (hnoch : ∀ q qn, getSg s q = some qn → e ∉ qn.children)
    (h : create fuel s e p sc = some (s', b)) : linkInv s' := by
  obtain ⟨hA, hB, hC, hD⟩ := hInv
  rw [create_eq] at h
  set rec : scene_graph_component :=
    { e := e, local_pose := p, local_scale := sc
      parent := kInvalidEntity, children := [] } with hrec
  set s2 : transform_system :=
    { scene_graph_transforms := setk s.scene_graph_transforms e rec
      world_transforms := setk s.world_transforms e { e := e, world_pose := default } }
    with hs2
  have hg2 : ∀ y, getSg s2 y = if e = y then some rec else getSg s y := by
    intro y
    have hrw0 : getSg s2 y = getSg (setSg s e rec) y := rfl
    rw [hrw0, getSg_setSg]
  cases hrw : recalculate_world_transform fuel s2 e with
  | none => rw [hrw] at h; cases h
  | some t =>
    rw [hrw] at h
    simp only [Option.map_some'] at h
    have hts : t = s' := congrArg Prod.fst (Option.some.inj h)
    have hInv2 : linkInv s2 := by
      refine ⟨?_, ?_, ?_, ?_⟩
      · intro q c qn cn hq hc
        rw [hg2] at hq hc
        by_cases hqe : e = q
        · rw [if_pos hqe] at hq
          have hqn : qn = rec := (Option.some.inj hq).symm
          subst hqn
          by_cases hce : e = c
          · rw [if_pos hce] at hc
            have hcn : cn = rec := (Option.some.inj hc).symm
            subst hcn
            constructor
            · intro hm; cases hm
            · intro hp
              exact absurd (hqe.trans hp.symm) he
          · rw [if_neg hce] at hc
            constructor
            · intro hm; cases hm
            · intro hp
              have : cn.parent ≠ kInvalidEntity := by
                rw [hp, ← hqe]; exact he
              have := hB c cn hc this
              rw [hp, ← hqe, habs] at this
              cases this
        · rw [if_neg hqe] at hq
          by_cases hce : e = c
          · rw [if_pos hce] at hc
            have hcn : cn = rec := (Option.some.inj hc).symm
            subst hcn
            constructor
            · intro hm
              exact absurd (hce ▸ hm) (hnoch q qn hq)
            · intro hp
              exact absurd hp.symm (present_ne_invalid ⟨hA, hB, hC, hD⟩ hq)
          · rw [if_neg hce] at hc
            exact hA q c qn cn hq hc
      · intro c cn hc hp
        rw [hg2] at hc
        rw [hg2]
        by_cases hce : e = c
        · rw [if_pos hce] at hc
          have hcn : cn = rec := (Option.some.inj hc).symm
          subst hcn
          exact absurd rfl hp
        · rw [if_neg hce] at hc
          by_cases hpe : e = cn.parent
          · rw [if_pos hpe]; rfl
          · rw [if_neg hpe]
            exact hB c cn hc hp
      · intro q qn hq c hcm
        rw [hg2] at hq
        rw [hg2]
        by_cases hqe : e = q
        · rw [if_pos hqe] at hq
          have hqn : qn = rec := (Option.some.inj hq).symm
          subst hqn
          cases hcm
        · rw [if_neg hqe] at hq
          by_cases hce : e = c
          · rw [if_pos hce]; rfl
          · rw [if_neg hce]
            exact hC q qn hq c hcm
      · rw [hg2, if_neg he]
        exact hD
    have htab : t.scene_graph_transforms = s2.scene_graph_transforms := by
      refine recalc_sg_table fuel s2 e t ?_ hInv2.2.1 hInv2.2.2.1 hrw
      rw [hg2, if_pos rfl]
      rfl
    exact hts ▸ linkInv_congr (getSg_eq_of_table htab) hInv2

end transform_system

namespace transform_system

theorem parent_eq_zero_of_get_parent_zero {s : transform_system} {c : entity}
    {cn : scene_graph_component} (hc0 : c ≠ kInvalidEntity)
    (hcn : findk s.scene_graph_transforms c = some cn)
    (h : get_parent s c = kInvalidEntity) :
    cn.parent = kInvalidEntity := by
  unfold get_parent at h
  rw [if_neg hc0, hcn] at h
  have h2 : (if cn.parent ≠ kInvalidEntity then cn.parent else kInvalidEntity) =
      kInvalidEntity := h
  by_cases hp : cn.parent = kInvalidEntity
  · exact hp
  · rw [if_pos hp] at h2
    exact absurd h2 hp

theorem add_child_success_eq (fuel : Nat) (s : transform_system) (pa c : entity)
    (h1 : pa ≠ kInvalidEntity) (h2 : c ≠ kInvalidEntity)
    (h3 : ¬(has_transform s pa = false)) (h4 : ¬(has_transform s c = false)) :
    add_child fuel s pa c =
      (recalculate_world_transform fuel
        (setSg (setSg s pa { sgOr s pa with children := (sgOr s pa).children ++ [c] }) c
          { sgOr (setSg s pa { sgOr s pa with children := (sgOr s pa).children ++ [c] }) c
            with parent := pa }) pa).map
        (fun t => (t, Except.ok true)) := by
  unfold add_child
  rw [if_neg h1, if_neg h2, if_neg h3, if_neg h4]

theorem linkInv_add_child (fuel : Nat) (s : transform_system) (pa c : entity)
    (s' : transform_system) (r : Except String Bool)
    (hInv : linkInv s) (hnp : get_parent s c = kInvalidEntity)
    (h : add_child fuel s pa c = some (s', r)) : linkInv s' := by
  by_cases h1 : pa = kInvalidEntity
  · unfold add_child at h
    rw [if_pos h1] at h
    have : s = s' := congrArg Prod.fst (Option.some.inj h)
    exact this ▸ hInv
  by_cases h2 : c = kInvalidEntity
  · unfold add_child at h
    rw [if_neg h1, if_pos h2] at h
    have : s = s' := congrArg Prod.fst (Option.some.inj h)
    exact this ▸ hInv
  by_cases h3 : has_transform s pa = false
  · unfold add_child at h
    rw [if_neg h1, if_neg h2, if_pos h3] at h
    have : s = s' := congrArg Prod.fst (Option.some.inj h)
    exact this ▸ hInv
  by_cases h4 : has_transform s c = false
  · unfold add_child at h
    rw [if_neg h1, if_neg h2, if_neg h3, if_pos h4] at h
    have : s = s' := congrArg Prod.fst (Option.some.inj h)
    exact this ▸ hInv
  -- success path
  rw [add_child_success_eq fuel s pa c h1 h2 h3 h4] at h
  obtain ⟨hA, hB, hC, hD⟩ := hInv
  have h3g : (getSg s pa).isSome = true := by
    revert h3
    unfold has_transform getSg
    cases findk s.scene_graph_transforms pa <;> simp
  have h4g : (getSg s c).isSome = true := by
    revert h4
    unfold has_transform getSg
    cases findk s.scene_graph_transforms c <;> simp
  obtain ⟨pn, hpn⟩ := Option.isSome_iff_exists.mp h3g
  obtain ⟨cn, hcn⟩ := Option.isSome_iff_exists.mp h4g
  have hsgpa : sgOr s pa = pn := by unfold sgOr; rw [hpn]; rfl
  have hcp0 : cn.parent = kInvalidEntity :=
    parent_eq_zero_of_get_parent_zero h2 hcn hnp
  by_cases hpc : pa = c
  · -- parent and child are the same entity: the two updates alias.
    subst hpc
    have hpncn : pn = cn := by
      rw [hpn] at hcn
      exact Option.some.inj hcn
    subst hpncn
    set v1 : scene_graph_component :=
      { sgOr s pa with children := (sgOr s pa).children ++ [pa] } with hv1
    have hsg1 : sgOr (setSg s pa v1) pa = v1 := by
      unfold sgOr
      rw [getSg_setSg_self]
      rfl
    rw [hsg1] at h
    set v2 : scene_graph_component := { v1 with parent := pa } with hv2
    set s2 : transform_system := setSg (setSg s pa v1) pa v2 with hs2
    have hg2 : ∀ y, getSg s2 y = if pa = y then some v2 else getSg s y := by
      intro y
      rw [hs2, getSg_setSg]
      by_cases hy : pa = y
      · rw [if_pos hy, if_pos hy]
      · rw [if_neg hy, if_neg hy, getSg_setSg_ne _ _ _ _ hy]
    cases hrw : recalculate_world_transform fuel s2 pa with
    | none => rw [hrw] at h; cases h
    | some t =>
      rw [hrw] at h
      simp only [Option.map_some'] at h
      have hts : t = s' := congrArg Prod.fst (Option.some.inj h)
      have hv2fields : v2.parent = pa ∧ v2.children = pn.children ++ [pa] := by
        constructor
        · rfl
        · rw [hv2, hv1, hsgpa]
      have hInv2 : linkInv s2 := by
        refine ⟨?_, ?_, ?_, ?_⟩
        · intro q x qn xn hq hx
          rw [hg2] at hq hx
          by_cases hqc : pa = q
          · rw [if_pos hqc] at hq
            have hqn : qn = v2 := (Option.some.inj hq).symm
            subst hqn
            by_cases hxc : pa = x
            · rw [if_pos hxc] at hx
              have hxn : xn = v2 := (Option.some.inj hx).symm
              subst hxn
              refine iff_of_true ?_ ?_
              · rw [hv2fields.2, ← hxc]
                simp
              · rw [hv2fields.1, hqc]
            · rw [if_neg hxc] at hx
              rw [hv2fields.2]
              have hmem : x ∈ pn.children ++ [pa] ↔ x ∈ pn.children := by
                simp [List.mem_append]
                intro hxpa
                exact absurd hxpa.symm hxc
              rw [hmem, ← hqc]
              exact hA pa x pn xn hpn hx
          · rw [if_neg hqc] at hq
            by_cases hxc : pa = x
            · rw [if_pos hxc] at hx
              have hxn : xn = v2 := (Option.some.inj hx).symm
              subst hxn
              refine iff_of_false ?_ ?_
              · intro hm
                have := (hA q pa qn pn hq hpn).mp (hxc ▸ hm)
                rw [hcp0] at this
                exact present_ne_invalid ⟨hA, hB, hC, hD⟩ hq this.symm
              · rw [hv2fields.1]
                intro hqq
                exact hqc hqq
            · rw [if_neg hxc] at hx
              exact hA q x qn xn hq hx
        · intro x xn hx hp
          rw [hg2] at hx
          rw [hg2]
          by_cases hxc : pa = x
          · rw [if_pos hxc] at hx
            have hxn : xn = v2 := (Option.some.inj hx).symm
            subst hxn
            rw [hv2fields.1, if_pos rfl]
            rfl
          · rw [if_neg hxc] at hx
            by_cases hpp : pa = xn.parent
            · rw [if_pos hpp]; rfl
            · rw [if_neg hpp]
              exact hB x xn hx hp
        · intro q qn hq x hxm
          rw [hg2] at hq
          rw [hg2]
          by_cases hqc : pa = q
          · rw [if_pos hqc] at hq
            have hqn : qn = v2 := (Option.some.inj hq).symm
            subst hqn
            rw [hv2fields.2] at hxm
            rcases List.mem_append.mp hxm with hxm | hxm
            · by_cases hxc : pa = x
              · rw [if_pos hxc]; rfl
              · rw [if_neg hxc]
                exact hC pa pn hpn x hxm
            · have : x = pa := List.mem_singleton.mp hxm
              rw [if_pos this.symm]
              rfl
          · rw [if_neg hqc] at hq
            by_cases hxc : pa = x
            · rw [if_pos hxc]; rfl
            · rw [if_neg hxc]
              exact hC q qn hq x hxm
        · rw [hg2, if_neg h1]
          exact hD
      have htab : t.scene_graph_transforms = s2.scene_graph_transforms := by
        refine recalc_sg_table fuel s2 pa t ?_ hInv2.2.1 hInv2.2.2.1 hrw
        rw [hg2, if_pos rfl]
        rfl
      exact hts ▸ linkInv_congr (getSg_eq_of_table htab) hInv2
  · -- distinct parent and child
    set v1 : scene_graph_component :=
      { sgOr s pa with children := (sgOr s pa).children ++ [c] } with hv1
    have hsg1 : sgOr (setSg s pa v1) c = cn := by
      unfold sgOr
      rw [getSg_setSg_ne _ _ _ _ hpc, hcn]
      rfl
    rw [hsg1] at h
    set v2 : scene_graph_component := { cn with parent := pa } with hv2
    set s2 : transform_system := setSg (setSg s pa v1) c v2 with hs2
    have hg2 : ∀ y, getSg s2 y =
        if c = y then some v2 else if pa = y then some v1 else getSg s y := by
      intro y
      rw [hs2, getSg_setSg]
      by_cases hy : c = y
      · rw [if_pos hy, if_pos hy]
      · rw [if_neg hy, if_neg hy, getSg_setSg]
    cases hrw : recalculate_world_transform fuel s2 pa with
    | none => rw [hrw] at h; cases h
    | some t =>
      rw [hrw] at h
      simp only [Option.map_some'] at h
      have hts : t = s' := congrArg Prod.fst (Option.some.inj h)
      have hv1fields : v1.parent = pn.parent ∧ v1.children = pn.children ++ [c] := by
        constructor
        · rw [hv1, hsgpa]
        · rw [hv1, hsgpa]
      have hInv2 : linkInv s2 := by
        refine ⟨?_, ?_, ?_, ?_⟩
        · intro q x qn xn hq hx
          rw [hg2] at hq hx
          by_cases hxc : c = x
          · subst hxc
            rw [if_pos rfl] at hx
            have hxn : xn = v2 := (Option.some.inj hx).symm
            subst hxn
            by_cases hqpa : pa = q
            · refine iff_of_true ?_ ?_
              · have hqn : qn = v1 := by
                  rw [if_neg (fun hcq => hpc (hqpa.trans hcq.symm)), if_pos hqpa] at hq
                  exact (Option.some.inj hq).symm
                subst hqn
                rw [hv1fields.2]
                simp
              · rw [hv2, hqpa]
            · refine iff_of_false ?_ ?_
              · intro hm
                have hqrec : ∃ qn0, getSg s q = some qn0 ∧ qn0.children = qn.children := by
                  by_cases hqc : c = q
                  · rw [if_pos hqc] at hq
                    refine ⟨cn, hqc ▸ hcn, ?_⟩
                    rw [← Option.some.inj hq, hv2]
                  · rw [if_neg hqc, if_neg hqpa] at hq
                    exact ⟨qn, hq, rfl⟩
                obtain ⟨qn0, hq0, hch0⟩ := hqrec
                have hmem : c ∈ qn0.children := by rw [hch0]; exact hm
                have := (hA q c qn0 cn hq0 hcn).mp hmem
                rw [hcp0] at this
                exact present_ne_invalid ⟨hA, hB, hC, hD⟩ hq0 this.symm
              · rw [hv2]
                intro hpq
                exact hqpa hpq
          · rw [if_neg hxc] at hx
            have hxrec : ∃ xn0, getSg s x = some xn0 ∧ xn0.parent = xn.parent := by
              by_cases hxpa : pa = x
              · rw [if_pos hxpa] at hx
                refine ⟨pn, hxpa ▸ hpn, ?_⟩
                rw [← Option.some.inj hx, hv1fields.1]
              · rw [if_neg hxpa] at hx
                exact ⟨xn, hx, rfl⟩
            obtain ⟨xn0, hx0, hpar0⟩ := hxrec
            by_cases hqpa : pa = q
            · have hqn : qn = v1 := by
                rw [if_neg (fun hcq => hpc (hqpa.trans hcq.symm)), if_pos hqpa] at hq
                exact (Option.some.inj hq).symm
              subst hqn
              rw [hv1fields.2]
              have hmem : x ∈ pn.children ++ [c] ↔ x ∈ pn.children := by
                simp [List.mem_append]
                intro hxx
                exact absurd hxx.symm hxc
              rw [hmem, ← hpar0, ← hqpa]
              exact hA pa x pn xn0 hpn hx0
            · have hqrec : ∃ qn0, getSg s q = some qn0 ∧ qn0.children = qn.children := by
                by_cases hqc : c = q
                · rw [if_pos hqc] at hq
                  refine ⟨cn, hqc ▸ hcn, ?_⟩
                  rw [← Option.some.inj hq, hv2]
                · rw [if_neg hqc, if_neg hqpa] at hq
                  exact ⟨qn, hq, rfl⟩
              obtain ⟨qn0, hq0, hch0⟩ := hqrec
              rw [← hch0, ← hpar0]
              exact hA q x qn0 xn0 hq0 hx0
        · intro x xn hx hp
          rw [hg2] at hx
          rw [hg2]
          by_cases hxc : c = x
          · rw [if_pos hxc] at hx
            have hxn : xn = v2 := (Option.some.inj hx).symm
            subst hxn
            rw [hv2]
            by_cases hcpa : c = pa
            · exact absurd hcpa.symm hpc
            · rw [if_neg hcpa, if_pos rfl]
              rfl
          · rw [if_neg hxc] at hx
            have hxrec : ∃ xn0, getSg s x = some xn0 ∧ xn0.parent = xn.parent := by
              by_cases hxpa : pa = x
              · rw [if_pos hxpa] at hx
                refine ⟨pn, hxpa ▸ hpn, ?_⟩
                rw [← Option.some.inj hx, hv1fields.1]
              · rw [if_neg hxpa] at hx
                exact ⟨xn, hx, rfl⟩
            obtain ⟨xn0, hx0, hpar0⟩ := hxrec
            by_cases hpc2 : c = xn.parent
            · rw [if_pos hpc2]; rfl
            · rw [if_neg hpc2]
              by_cases hppa : pa = xn.parent
              · rw [if_pos hppa]; rfl
              · rw [if_neg hppa]
                rw [← hpar0] at hp ⊢
                exact hB x xn0 hx0 hp
        · intro q qn hq x hxm
          rw [hg2] at hq
          rw [hg2]
          by_cases hxc : c = x
          · rw [if_pos hxc]; rfl
          · rw [if_neg hxc]
            by_cases hxpa : pa = x
            · rw [if_pos hxpa]; rfl
            · rw [if_neg hxpa]
              by_cases hqpa : pa = q
              · have hqn : qn = v1 := by
                  rw [if_neg (fun hcq => hpc (hqpa.trans hcq.symm)), if_pos hqpa] at hq
                  exact (Option.some.inj hq).symm
                subst hqn
                rw [hv1fields.2] at hxm
                rcases List.mem_append.mp hxm with hxm | hxm
                · exact hC pa pn hpn x hxm
                · exact absurd (List.mem_singleton.mp hxm).symm hxc
              · have hqrec : ∃ qn0, getSg s q = some qn0 ∧ qn0.children = qn.children := by
                  by_cases hqc : c = q
                  · rw [if_pos hqc] at hq
                    refine ⟨cn, hqc ▸ hcn, ?_⟩
                    rw [← Option.some.inj hq, hv2]
                  · rw [if_neg hqc, if_neg hqpa] at hq
                    exact ⟨qn, hq, rfl⟩
                obtain ⟨qn0, hq0, hch0⟩ := hqrec
                rw [← hch0] at hxm
                exact hC q qn0 hq0 x hxm
        · rw [hg2, if_neg h2, if_neg h1]
          exact hD
      have htab : t.scene_graph_transforms = s2.scene_graph_transforms := by
        refine recalc_sg_table fuel s2 pa t ?_ hInv2.2.1 hInv2.2.2.1 hrw
        rw [hg2, if_neg (fun hcq => hpc hcq.symm), if_pos rfl]
        rfl
      exact hts ▸ linkInv_congr (getSg_eq_of_table htab) hInv2

end transform_system


namespace transform_system

theorem sgOr_setSg_self (s : transform_system) (x : entity) (n : scene_graph_component) :
    sgOr (setSg s x n) x = n := by
  unfold sgOr
  rw [getSg_setSg_self]
  rfl

theorem sgOr_setSg_ne (s : transform_system) (x y : entity) (n : scene_graph_component)
    (h : x ≠ y) : sgOr (setSg s x n) y = sgOr s y := by
  unfold sgOr
  rw [getSg_setSg_ne _ _ _ _ h]

theorem isSome_false_none {α : Type} {o : Option α} (h : o.isSome = false) : o = none := by
  cases o with
  | none => rfl
  | some v => simp at h

/-- Detaching `c` from its parent preserves the link invariant: if the new
state has the same domain, clears `c`'s parent reference, filters `c` out of
the parent's children and changes nothing else, it is again consistent. -/
theorem linkInv_of_filter_detach (s s4 : transform_system) (c : entity)
    (cn : scene_graph_component)
    (hInv : linkInv s) (hc0 : c ≠ kInvalidEntity)
    (hcs : getSg s c = some cn)
    (hdom : ∀ y, (getSg s4 y).isSome = (getSg s y).isSome)
    (huni : ∀ y yn, getSg s4 y = some yn →
      ∃ yn0, getSg s y = some yn0 ∧
        yn.parent = (if y = c then kInvalidEntity else yn0.parent) ∧
        yn.children = (if y = cn.parent then yn0.children.filter (fun x => x ≠ c)
          else yn0.children)) :
    linkInv s4 := by
  obtain ⟨hA, hB, hC, hD⟩ := hInv
  refine ⟨?_, ?_, ?_, ?_⟩
  · intro q x qn' xn' hq hx
    obtain ⟨qn0, hq0, hqp, hqch⟩ := huni q qn' hq
    obtain ⟨xn0, hx0, hxp, hxch⟩ := huni x xn' hx
    rw [hqch, hxp]
    by_cases hxc : x = c
    · subst hxc
      rw [if_pos rfl]
      refine iff_of_false ?_ ?_
      · intro hm
        by_cases hqcp : q = cn.parent
        · rw [if_pos hqcp] at hm
          have h2 := (List.mem_filter.mp hm).2
          simp at h2
        · rw [if_neg hqcp] at hm
          have := (hA q x qn0 cn hq0 hcs).mp hm
          exact hqcp this.symm
      · intro h0
        exact present_ne_invalid ⟨hA, hB, hC, hD⟩ hq0 h0.symm
    · rw [if_neg hxc]
      by_cases hqcp : q = cn.parent
      · rw [if_pos hqcp]
        have hmf : x ∈ qn0.children.filter (fun z => z ≠ c) ↔ x ∈ qn0.children := by
          simp [List.mem_filter, hxc]
        rw [hmf]
        exact hA q x qn0 xn0 hq0 hx0
      · rw [if_neg hqcp]
        exact hA q x qn0 xn0 hq0 hx0
  · intro x xn' hx' hp
    obtain ⟨xn0, hx0, hxp, _⟩ := huni x xn' hx'
    rw [hxp] at hp ⊢
    by_cases hxc : x = c
    · rw [if_pos hxc] at hp
      exact absurd rfl hp
    · rw [if_neg hxc] at hp ⊢
      rw [hdom]
      exact hB x xn0 hx0 hp
  · intro q qn' hq' x hxm
    obtain ⟨qn0, hq0, _, hqch⟩ := huni q qn' hq'
    rw [hqch] at hxm
    have hxm0 : x ∈ qn0.children := by
      by_cases hqcp : q = cn.parent
      · rw [if_pos hqcp] at hxm
        exact (List.mem_filter.mp hxm).1
      · rw [if_neg hqcp] at hxm
        exact hxm
    rw [hdom]
    exact hC q qn0 hq0 x hxm0
  · refine isSome_false_none ?_
    rw [hdom, hD]
    rfl

theorem linkInv_remove_parent (fuel : Nat) (s : transform_system) (c : entity)
    (s' : transform_system) (hInv : linkInv s) (hc0 : c ≠ kInvalidEntity)
    (h : remove_parent fuel s c = some s') : linkInv s' := by
  obtain ⟨hA, hB, hC, hD⟩ := hInv
  simp only [remove_parent] at h
  cases hcs : getSg s c with
  | none =>
    -- no record: `operator[]` default-inserts a fresh root record.
    have hp : (sgOr s c).parent = kInvalidEntity := by
      unfold sgOr; rw [hcs]; rfl
    rw [if_pos hp] at h
    have hs' : s' = ensureSg s c := (Option.some.inj h).symm
    subst hs'
    have hg : ∀ y, getSg (ensureSg s c) y =
        if c = y then some dfl_scene_graph else getSg s y := by
      intro y
      by_cases hy : c = y
      · subst hy
        rw [if_pos rfl, getSg_ensureSg_self]
        unfold sgOr
        rw [hcs]
        rfl
      · rw [if_neg hy]
        exact getSg_ensureSg_ne s c y hy
    refine ⟨?_, ?_, ?_, ?_⟩
    · intro q x qn xn hq hx
      rw [hg] at hq hx
      by_cases hqc : c = q
      · rw [if_pos hqc] at hq
        have hqn : qn = dfl_scene_graph := (Option.some.inj hq).symm
        subst hqn
        refine iff_of_false (by intro hm; cases hm) ?_
        intro hxp
        by_cases hxc : c = x
        · rw [if_pos hxc] at hx
          have hxn : xn = dfl_scene_graph := (Option.some.inj hx).symm
          subst hxn
          exact hc0 (hqc.symm ▸ hxp : dfl_scene_graph.parent = c).symm
        · rw [if_neg hxc] at hx
          have hxp' : xn.parent ≠ kInvalidEntity := by
            rw [hxp, ← hqc]; exact hc0
          have := hB x xn hx hxp'
          rw [hxp, ← hqc, hcs] at this
          cases this
      · rw [if_neg hqc] at hq
        by_cases hxc : c = x
        · rw [if_pos hxc] at hx
          have hxn : xn = dfl_scene_graph := (Option.some.inj hx).symm
          subst hxn
          refine iff_of_false ?_ ?_
          · intro hm
            have := hC q qn hq x hm
            rw [← hxc, hcs] at this
            cases this
          · intro hxp
            exact present_ne_invalid ⟨hA, hB, hC, hD⟩ hq hxp.symm
        · rw [if_neg hxc] at hx
          exact hA q x qn xn hq hx
    · intro x xn hx hp
      rw [hg] at hx
      rw [hg]
      by_cases hxc : c = x
      · rw [if_pos hxc] at hx
        have hxn : xn = dfl_scene_graph := (Option.some.inj hx).symm
        subst hxn
        exact absurd rfl hp
      · rw [if_neg hxc] at hx
        by_cases hpc : c = xn.parent
        · rw [if_pos hpc]; rfl
        · rw [if_neg hpc]
          exact hB x xn hx hp
    · intro q qn hq x hxm
      rw [hg] at hq
      rw [hg]
      by_cases hqc : c = q
      · rw [if_pos hqc] at hq
        have hqn : qn = dfl_scene_graph := (Option.some.inj hq).symm
        subst hqn
        cases hxm
      · rw [if_neg hqc] at hq
        by_cases hxc : c = x
        · rw [if_pos hxc]; rfl
        · rw [if_neg hxc]
          exact hC q qn hq x hxm
    · rw [hg, if_neg hc0]
      exact hD
  | some cn =>
    have hsoc : sgOr s c = cn := by unfold sgOr; rw [hcs]; rfl
    have hens : ensureSg s c = s := ensureSg_of_some s c (by rw [hcs]; rfl)
    rw [hsoc, hens] at h
    by_cases hp0 : cn.parent = kInvalidEntity
    · rw [if_pos hp0] at h
      have hs' : s' = s := (Option.some.inj h).symm
      subst hs'
      exact ⟨hA, hB, hC, hD⟩
    · rw [if_neg hp0] at h
      have hqs : (getSg s cn.parent).isSome = true := hB c cn hcs hp0
      obtain ⟨qn, hqn⟩ := Option.isSome_iff_exists.mp hqs
      have hensq : ensureSg s cn.parent = s := ensureSg_of_some s cn.parent hqs
      have hsoq : sgOr s cn.parent = qn := by unfold sgOr; rw [hqn]; rfl
      rw [hensq, hsoq] at h
      -- h is now the recalc applied to the doubly-updated state
      by_cases hqc : cn.parent = c
      · -- self-parent: both updates hit c's record.
        rw [hqc] at h
        have hqncn : qn = cn := by
          rw [hqc, hcs] at hqn
          exact (Option.some.inj hqn).symm
        rw [sgOr_setSg_self] at h
        set v3 : scene_graph_component :=
          { qn with children := qn.children.filter (fun x => x ≠ c) } with hv3
        set s4 : transform_system :=
          setSg (setSg s c v3) c { v3 with parent := kInvalidEntity } with hs4
        have hg4 : ∀ y, getSg s4 y =
            if c = y then some { v3 with parent := kInvalidEntity } else getSg s y := by
          intro y
          rw [hs4, getSg_setSg]
          by_cases hy : c = y
          · rw [if_pos hy, if_pos hy]
          · rw [if_neg hy, if_neg hy, getSg_setSg_ne _ _ _ _ hy]
        have hdom : ∀ y, (getSg s4 y).isSome = (getSg s y).isSome := by
          intro y
          rw [hg4]
          by_cases hy : c = y
          · rw [if_pos hy, ← hy, hcs]; rfl
          · rw [if_neg hy]
        have huni : ∀ y yn, getSg s4 y = some yn →
            ∃ yn0, getSg s y = some yn0 ∧
              yn.parent = (if y = c then kInvalidEntity else yn0.parent) ∧
              yn.children = (if y = cn.parent then
                yn0.children.filter (fun x => x ≠ c) else yn0.children) := by
          intro y yn hy
          rw [hg4] at hy
          by_cases hyc : c = y
          · rw [if_pos hyc] at hy
            refine ⟨cn, hyc ▸ hcs, ?_, ?_⟩
            · rw [← Option.some.inj hy, if_pos hyc.symm]
            · rw [← Option.some.inj hy, if_pos (hqc ▸ hyc.symm : y = cn.parent)]
              show v3.children = cn.children.filter (fun x => x ≠ c)
              rw [hv3, hqncn]
          · rw [if_neg hyc] at hy
            refine ⟨yn, hy, ?_, ?_⟩
            · rw [if_neg (fun hyy => hyc hyy.symm)]
            · rw [if_neg (fun hyy => hyc (hqc ▸ hyy : y = c).symm)]
        have hInv4 : linkInv s4 :=
          linkInv_of_filter_detach s s4 c cn ⟨hA, hB, hC, hD⟩ hc0 hcs hdom huni
        have hc4 : (getSg s4 c).isSome = true := by
          rw [hdom, hcs]; rfl
        have htab := recalc_sg_table fuel s4 c s' hc4 hInv4.2.1 hInv4.2.2.1 h
        exact linkInv_congr (getSg_eq_of_table htab) hInv4
      · -- distinct parent: parent's children filtered, child's parent cleared.
        rw [sgOr_setSg_ne _ _ _ _ hqc, hsoc] at h
        set v3 : scene_graph_component :=
          { qn with children := qn.children.filter (fun x => x ≠ c) } with hv3
        set s4 : transform_system :=
          setSg (setSg s cn.parent v3) c { cn with parent := kInvalidEntity } with hs4
        have hg4 : ∀ y, getSg s4 y =
            if c = y then some { cn with parent := kInvalidEntity }
            else if cn.parent = y then some v3 else getSg s y := by
          intro y
          rw [hs4, getSg_setSg]
          by_cases hy : c = y
          · rw [if_pos hy, if_pos hy]
          · rw [if_neg hy, if_neg hy, getSg_setSg]
        have hdom : ∀ y, (getSg s4 y).isSome = (getSg s y).isSome := by
          intro y
          rw [hg4]
          by_cases hy : c = y
          · rw [if_pos hy, ← hy, hcs]; rfl
          · rw [if_neg hy]
            by_cases hyq : cn.parent = y
            · rw [if_pos hyq, ← hyq, hqn]; rfl
            · rw [if_neg hyq]
        have huni : ∀ y yn, getSg s4 y = some yn →
            ∃ yn0, getSg s y = some yn0 ∧
              yn.parent = (if y = c then kInvalidEntity else yn0.parent) ∧
              yn.children = (if y = cn.parent then
                yn0.children.filter (fun x => x ≠ c) else yn0.children) := by
          intro y yn hy
          rw [hg4] at hy
          by_cases hyc : c = y
          · rw [if_pos hyc] at hy
            refine ⟨cn, hyc ▸ hcs, ?_, ?_⟩
            · rw [← Option.some.inj hy, if_pos hyc.symm]
            · rw [← Option.some.inj hy,
                if_neg (fun hyy : y = cn.parent => hqc (hyy ▸ hyc : c = cn.parent).symm)]
          · rw [if_neg hyc] at hy
            by_cases hyq : cn.parent = y
            · rw [if_pos hyq] at hy
              refine ⟨qn, hyq ▸ hqn, ?_, ?_⟩
              · rw [← Option.some.inj hy, if_neg (fun hyy => hyc hyy.symm)]
              · rw [← Option.some.inj hy, if_pos hyq.symm]
            · rw [if_neg hyq] at hy
              refine ⟨yn, hy, ?_, ?_⟩
              · rw [if_neg (fun hyy => hyc hyy.symm)]
              · rw [if_neg (fun hyy => hyq hyy.symm)]
        have hInv4 : linkInv s4 :=
          linkInv_of_filter_detach s s4 c cn ⟨hA, hB, hC, hD⟩ hc0 hcs hdom huni
        have hc4 : (getSg s4 c).isSome = true := by
          rw [hdom, hcs]; rfl
        have htab := recalc_sg_table fuel s4 c s' hc4 hInv4.2.1 hInv4.2.2.1 h
        exact linkInv_congr (getSg_eq_of_table htab) hInv4

end transform_system

namespace transform_system

theorem linkInv_destroy (fuel : Nat) (s : transform_system) (e : entity)
    (s' : transform_system) (r : Except String Unit)
    (hInv : linkInv s) (hroot : get_parent s e = kInvalidEntity)
    (h : destroy fuel s e = some (s', r)) : linkInv s' := by
  obtain ⟨hA, hB, hC, hD⟩ := hInv
  unfold destroy at h
  by_cases he0 : e = kInvalidEntity
  · rw [if_pos he0] at h
    have : s = s' := congrArg Prod.fst (Option.some.inj h)
    exact this ▸ ⟨hA, hB, hC, hD⟩
  rw [if_neg he0] at h
  by_cases hht : has_transform s e = false
  · rw [if_pos hht] at h
    have : s = s' := congrArg Prod.fst (Option.some.inj h)
    exact this ▸ ⟨hA, hB, hC, hD⟩
  rw [if_neg hht] at h
  have heg : (getSg s e).isSome = true := by
    revert hht
    unfold has_transform getSg
    cases findk s.scene_graph_transforms e <;> simp
  obtain ⟨en, hen⟩ := Option.isSome_iff_exists.mp heg
  have hep0 : en.parent = kInvalidEntity :=
    parent_eq_zero_of_get_parent_zero he0 hen hroot
  cases hdr : destroy_recursive fuel s e with
  | none => rw [hdr] at h; cases h
  | some t =>
    rw [hdr] at h
    simp only [Option.map_some'] at h
    have hts : t = s' := congrArg Prod.fst (Option.some.inj h)
    obtain ⟨hshr, hwts, _, _, _, hreach, hframe⟩ :=
      destroy_rec_spec s fuel s e t (sgShrink_refl s) (wtShrink_refl s)
        (fun y hy0 hy => absurd hy hy0) hdr
    have hkeep : ∀ y yn, getSg t y = some yn → getSg s y = some yn := by
      intro y yn hy
      rcases hshr y with h' | h'
      · rw [← h', hy]
      · rw [hy] at h'; cases h'
    have hInvT : linkInv t := by
      refine ⟨?_, ?_, ?_, ?_⟩
      · intro q x qn xn hq hx
        exact hA q x qn xn (hkeep q qn hq) (hkeep x xn hx)
      · intro x xn hx hp
        have hx0 := hkeep x xn hx
        have hps := hB x xn hx0 hp
        obtain ⟨pn, hpn⟩ := Option.isSome_iff_exists.mp hps
        by_cases hr : reaches s e xn.parent
        · -- the parent would be in the destroyed subtree, but then so is x.
          exfalso
          have hxm : x ∈ pn.children := (hA xn.parent x pn xn hpn hx0).mpr rfl
          have hxch : x ∈ childrenOf s xn.parent := by
            unfold childrenOf sgOr
            rw [hpn]
            exact hxm
          have : reaches s e x := reaches_trans hr (reaches_child hxch)
          have := (hreach x this).1
          rw [hx] at this
          cases this
        · obtain ⟨h1, _⟩ := hframe xn.parent hr
          rw [h1, hpn]
          rfl
      · intro q qn hq x hxm
        have hq0 := hkeep q qn hq
        have hxs := hC q qn hq0 x hxm
        obtain ⟨xn, hxn⟩ := Option.isSome_iff_exists.mp hxs
        by_cases hr : reaches s e x
        · exfalso
          have hxpq : xn.parent = q := (hA q x qn xn hq0 hxn).mp hxm
          rcases reaches_last_edge hr with hxe | ⟨y, hy, hxy⟩
          · -- x = e would mean the destroyed root has parent q ≠ 0.
            subst hxe
            have hxen : xn = en := by
              rw [hxn] at hen
              exact Option.some.inj hen
            subst hxen
            rw [hep0] at hxpq
            exact present_ne_invalid ⟨hA, hB, hC, hD⟩ hq0 hxpq.symm
          · -- the last edge into x comes from its unique parent q.
            unfold childrenOf sgOr at hxy
            have hyrec : ∃ yn, getSg s y = some yn ∧ x ∈ yn.children := by
              cases hys : getSg s y with
              | none =>
                rw [hys] at hxy
                simp [dfl_scene_graph] at hxy
              | some yn =>
                rw [hys] at hxy
                exact ⟨yn, rfl, hxy⟩
            obtain ⟨yn, hys, hxyn⟩ := hyrec
            have hxpy : xn.parent = y := (hA y x yn xn hys hxn).mp hxyn
            have hyq : y = q := by rw [← hxpy, hxpq]
            subst hyq
            have hcontra := (hreach y hy).1
            rw [hq] at hcontra
            cases hcontra
        · obtain ⟨h1, _⟩ := hframe x hr
          rw [h1, hxn]
          rfl
      · exact sgShrink_none hshr hD
    exact hts ▸ hInvT

/-- The link invariant holds in every state reachable by a disciplined call
sequence. -/
theorem linkInv_of_reachableD : ∀ {s : transform_system}, reachableD s → linkInv s := by
  intro s h
  induction h with
  | init =>
    refine ⟨?_, ?_, ?_, rfl⟩
    · intro q c qn cn hq hc
      cases hq
    · intro c cn hc hp
      cases hc
    · intro q qn hq c hcm
      cases hq
  | create_step fuel e p sc hre he habs hnoch hap ih =>
    rename_i s0 s1
    simp only [apply_op] at hap
    cases hcr : create fuel s0 e p sc with
    | none => rw [hcr] at hap; cases hap
    | some pr =>
      rw [hcr] at hap
      simp only [Option.map_some'] at hap
      obtain ⟨t, b⟩ := pr
      have : t = s1 := Option.some.inj hap
      subst this
      exact linkInv_create fuel s0 e p sc t b ih he habs hnoch hcr
  | add_child_step fuel parent child hre hnp hap ih =>
    rename_i s0 s1
    simp only [apply_op] at hap
    cases hac : add_child fuel s0 parent child with
    | none => rw [hac] at hap; cases hap
    | some pr =>
      rw [hac] at hap
      simp only [Option.map_some'] at hap
      obtain ⟨t, r⟩ := pr
      have : t = s1 := Option.some.inj hap
      subst this
      exact linkInv_add_child fuel s0 parent child t r ih hnp hac
  | remove_parent_step fuel child hre hc0 hap ih =>
    rename_i s0 s1
    simp only [apply_op] at hap
    exact linkInv_remove_parent fuel s0 child s1 ih hc0 hap
  | destroy_step fuel e hre hroot hap ih =>
    rename_i s0 s1
    simp only [apply_op] at hap
    cases hde : destroy fuel s0 e with
    | none => rw [hde] at hap; cases hap
    | some pr =>
      rw [hde] at hap
      simp only [Option.map_some'] at hap
      obtain ⟨t, r⟩ := pr
      have : t = s1 := Option.some.inj hap
      subst this
      exact linkInv_destroy fuel s0 e t r ih hroot hde

end transform_system

namespace transform_system

/-! ### Remaining helper lemmas -/

theorem reachable_runOps : ∀ (os : List sys_op) (s t : transform_system) (f : Nat),
    reachable s → runOps f s os = some t → reachable t := by
  intro os
  induction os with
  | nil =>
    intro s t f hs h
    simp only [runOps] at h
    cases h
    exact hs
  | cons o os ih =>
    intro s t f hs h
    simp only [runOps] at h
    cases ho : apply_op f s o with
    | none => rw [ho] at h; cases h
    | some u =>
      rw [ho] at h
      exact ih u t f (reachable.step f o hs ho) h

theorem get_parent_eq {s : transform_system} {x : entity} {n : scene_graph_component}
    (hx : x ≠ kInvalidEntity) (hn : getSg s x = some n) :
    get_parent s x = if n.parent ≠ kInvalidEntity then n.parent else kInvalidEntity := by
  unfold get_parent
  unfold getSg at hn
  rw [if_neg hx, hn]

theorem sgEvolve.getSg_eq_of_some {s t : transform_system} (h : sgEvolve s t)
    {x : entity} {n : scene_graph_component} (hx : getSg s x = some n) :
    getSg t x = some n := by
  rcases h x with h' | ⟨h1, _⟩
  · rw [h', hx]
  · rw [hx] at h1; cases h1
end transform_system

namespace entity_manager

theorem after_creates_counter (n : Nat) :
    (after_creates n).entity_counter = n % 2 ^ 64 := by
  induction n with
  | zero => rfl
  | succ n ih =>
    show ((after_creates n).create).2.entity_counter = (n + 1) % 2 ^ 64
    unfold create
    simp only
    rw [ih]
    omega

theorem returned_id_eq (n : Nat) (h : 1 ≤ n) : returned_id n = n % 2 ^ 64 := by
  obtain ⟨k, rfl⟩ : ∃ k, n = k + 1 := ⟨n - 1, (Nat.succ_pred_eq_of_pos h).symm⟩
  show ((after_creates (k + 1 - 1)).entity_counter + 1) % 2 ^ 64 = (k + 1) % 2 ^ 64
  rw [Nat.add_sub_cancel, after_creates_counter]
  exact Nat.mod_add_mod k (2 ^ 64) 1

end entity_manager

namespace transform_system

/-! ## The claims -/

/-- C1: `recalculate_world_transform` sets the world pose of the entity it is
called on (and, recursively, of every child) by the rule: no parent ⟹ world
pose = local pose; parent present ⟹ world pose = local pose composed with
the parent's *local* pose.  In particular after a successful
`add_child R C` with `R` a root, `C`'s world pose is `C`'s local pose
composed with `R`'s local pose, and `R`'s world pose is its local pose. -/
theorem claim_C1 :
    (∀ (fuel : Nat) (s : transform_system) (e : entity) (s' : transform_system),
      recalculate_world_transform fuel s e = some s' →
        ((sgOr s e).parent = kInvalidEntity → wPose s' e = some (sgOr s e).local_pose) ∧
        ((sgOr s e).parent ≠ kInvalidEntity →
          wPose s' e = some (Pose.mul (sgOr s e).local_pose
            (sgOr s (sgOr s e).parent).local_pose)) ∧
        (∀ c ∈ childrenOf s e, wPose s' c = some (ruleVal s c))) ∧
    (∀ (fuel : Nat) (s : transform_system) (R C : entity) (s' : transform_system),
      add_child fuel s R C = some (s', Except.ok true) →
      (sgOr s R).parent = kInvalidEntity → R ≠ C →
      wPose s' C = some (Pose.mul (sgOr s C).local_pose (sgOr s R).local_pose) ∧
      wPose s' R = some (sgOr s R).local_pose) := by
  constructor
  · intro fuel s e s' h
    obtain ⟨_, _, hself, hchild⟩ := recalc_spec fuel s e s' h
    refine ⟨?_, ?_, hchild⟩
    · intro hp
      rw [hself]
      unfold ruleVal
      rw [if_pos hp]
    · intro hp
      rw [hself]
      unfold ruleVal
      rw [if_neg hp]
  · intro fuel s R C s' h hroot hRC
    by_cases h1 : R = kInvalidEntity
    · unfold add_child at h
      rw [if_pos h1] at h
      simp at h
    by_cases h2 : C = kInvalidEntity
    · unfold add_child at h
      rw [if_neg h1, if_pos h2] at h
      simp at h
    by_cases h3 : has_transform s R = false
    · unfold add_child at h
      rw [if_neg h1, if_neg h2, if_pos h3] at h
      simp at h
    by_cases h4 : has_transform s C = false
    · unfold add_child at h
      rw [if_neg h1, if_neg h2, if_neg h3, if_pos h4] at h
      simp at h
    rw [add_child_success_eq fuel s R C h1 h2 h3 h4] at h
    have h3g : (getSg s R).isSome = true := by
      revert h3
      unfold has_transform getSg
      cases findk s.scene_graph_transforms R <;> simp
    have h4g : (getSg s C).isSome = true := by
      revert h4
      unfold has_transform getSg
      cases findk s.scene_graph_transforms C <;> simp
    obtain ⟨pn, hpn⟩ := Option.isSome_iff_exists.mp h3g
    obtain ⟨cn, hcn⟩ := Option.isSome_iff_exists.mp h4g
    have hsgR : sgOr s R = pn := by unfold sgOr; rw [hpn]; rfl
    have hsgC : sgOr s C = cn := by unfold sgOr; rw [hcn]; rfl
    rw [hsgR] at h
    have hCR : C ≠ R := fun hc => hRC hc.symm
    rw [sgOr_setSg_ne _ _ _ _ hRC, hsgC] at h
    set v1 : scene_graph_component :=
      { pn with children := pn.children ++ [C] } with hv1
    set s2 : transform_system :=
      setSg (setSg s R v1) C { cn with parent := R } with hs2
    cases hrw : recalculate_world_transform fuel s2 R with
    | none => rw [hrw] at h; cases h
    | some t =>
      rw [hrw] at h
      simp only [Option.map_some'] at h
      have hts : t = s' := congrArg Prod.fst (Option.some.inj h)
      have hs2C : sgOr s2 C = { cn with parent := R } := sgOr_setSg_self _ _ _
      have hs2R : sgOr s2 R = v1 := by
        rw [hs2, sgOr_setSg_ne _ _ _ _ hCR, sgOr_setSg_self]
      have hrootp : pn.parent = kInvalidEntity := by
        rw [hsgR] at hroot
        exact hroot
      have hruleC : ruleVal s2 C = Pose.mul cn.local_pose pn.local_pose := by
        unfold ruleVal
        rw [hs2C]
        rw [if_neg (show ¬(({ cn with parent := R } :
          scene_graph_component).parent = kInvalidEntity) from h1)]
        show Pose.mul cn.local_pose (sgOr s2 R).local_pose = _
        rw [hs2R]
      have hruleR : ruleVal s2 R = pn.local_pose := by
        unfold ruleVal
        rw [hs2R]
        rw [if_pos (show (v1 : scene_graph_component).parent = kInvalidEntity
          from hrootp)]
      have hmem : C ∈ childrenOf s2 R := by
        unfold childrenOf
        rw [hs2R]
        show C ∈ pn.children ++ [C]
        simp
      obtain ⟨_, _, hself, hchild⟩ := recalc_spec fuel s2 R t hrw
      constructor
      · rw [← hts, hchild C hmem, hruleC, hsgC, hsgR]
      · rw [← hts, hself, hruleR, hsgR]

/-- Witness for C1 on a concrete two-node scene. -/
theorem claim_C1_witness :
    wPose exPairLinked 2 = some (Pose.mul (Pose.base 20) (Pose.base 10)) ∧
    wPose exPairLinked 1 = some (Pose.base 10) := by
  have h := claim_C1.2 10 exPair 1 2 exPairLinked (by rfl) (by rfl) (by decide)
  exact ⟨h.1, h.2⟩

end transform_system

namespace transform_system

/-- C2 (amended): in every state reachable by a disciplined call sequence —
`create` only on nonzero entities without a record that occur in no children
list, `add_child` only on children without a current parent, `remove_parent`
only on nonzero entities, `destroy` only on entities without a parent —
parent/child links are mutually consistent. -/
theorem claim_C2 (s : transform_system) (h : reachableD s) : consistent s :=
  (linkInv_of_reachableD h).1

/-- Witness for C2 on the state reached by one disciplined `create`. -/
theorem claim_C2_witness : consistent exOneCreate := by
  refine claim_C2 exOneCreate ?_
  refine reachableD.create_step 10 1 (Pose.base 1) ⟨0, 0, 0⟩ reachableD.init
    (by decide) rfl ?_ (by rfl)
  intro q qn hq
  cases hq

/-- Counterexample for C2 as stated: the reparenting sequence
`create 1; create 2; create 3; add_child 1 3; add_child 2 3` reaches a state
in which 3 is still in 1's children list while 3's parent reference is 2. -/
theorem claim_C2_counterexample : reachable reparentState ∧ ¬ consistent reparentState := by
  constructor
  · exact reachable_runOps reparentOps transform_system.empty reparentState 10
      reachable.init (by rfl)
  · intro hcon
    have h1 : getSg reparentState 1 =
        some { e := 1, local_pose := Pose.base 1, local_scale := ⟨0, 0, 0⟩
               parent := kInvalidEntity, children := [3] } := by rfl
    have h3 : getSg reparentState 3 =
        some { e := 3, local_pose := Pose.base 3, local_scale := ⟨0, 0, 0⟩
               parent := 2, children := [] } := by rfl
    have := (hcon 1 3 _ _ h1 h3).mp (by simp)
    simp at this

end transform_system

namespace transform_system

/-- C3: a successful `destroy(e)` erases `e` and every transitive descendant
from both tables (children are erased before their parent inside
`destroy_recursive`); afterwards `get_local_transform` and
`get_world_transform` return none and `has_transform` is false for every
such entity. -/
theorem claim_C3 (fuel : Nat) (s : transform_system) (e : entity) (s' : transform_system)
    (h : destroy fuel s e = some (s', Except.ok ())) :
    ∀ d, reaches s e d →
      getSg s' d = none ∧ getWt s' d = none ∧
      get_local_transform s' d = none ∧ get_world_transform s' d = none ∧
      has_transform s' d = false := by
  unfold destroy at h
  by_cases h1 : e = kInvalidEntity
  · rw [if_pos h1] at h
    simp at h
  rw [if_neg h1] at h
  by_cases h2 : has_transform s e = false
  · rw [if_pos h2] at h
    simp at h
  rw [if_neg h2] at h
  cases hdr : destroy_recursive fuel s e with
  | none => rw [hdr] at h; cases h
  | some t =>
    rw [hdr] at h
    simp only [Option.map_some'] at h
    have hts : t = s' := congrArg Prod.fst (Option.some.inj h)
    obtain ⟨_, _, _, _, _, hreach, _⟩ :=
      destroy_rec_spec s fuel s e t (sgShrink_refl s) (wtShrink_refl s)
        (fun y hy0 hy => absurd hy hy0) hdr
    intro d hd
    obtain ⟨hsg, hwt⟩ := hreach d hd
    rw [hts] at hsg hwt
    refine ⟨hsg, hwt, ?_, ?_, ?_⟩
    · unfold get_local_transform
      by_cases hd0 : d = kInvalidEntity
      · rw [if_pos hd0]
      · rw [if_neg hd0]
        exact hsg
    · unfold get_world_transform
      by_cases hd0 : d = kInvalidEntity
      · rw [if_pos hd0]
      · rw [if_neg hd0]
        exact hwt
    · show (getSg s' d).isSome = false
      rw [hsg]
      rfl

/-- Witness for C3: destroying the root of the concrete two-node scene
removes the child as well. -/
theorem claim_C3_witness :
    has_transform exTreeDestroyed 2 = false ∧
    get_local_transform exTreeDestroyed 2 = none := by
  have h := claim_C3 10 exTree 1 exTreeDestroyed (by rfl) 2
    (reaches.step (by decide) (reaches.refl 2))
  exact ⟨h.2.2.2.2, h.2.2.1⟩

end transform_system

namespace transform_system

/-- C4 (amended): for non-null parent and child that both have scene-graph
records, a terminating `add_child` returns true, appends the child at the end
of the parent's children list (so sibling order is insertion order), and sets
`get_parent child = parent`; the child appears exactly once in the list
provided it was not already there (a repeated `add_child` duplicates it). -/
theorem claim_C4 (fuel : Nat) (s : transform_system) (pa c : entity)
    (s' : transform_system) (r : Except String Bool)
    (hpa : pa ≠ kInvalidEntity) (hc : c ≠ kInvalidEntity)
    (hhp : has_transform s pa = true) (hhc : has_transform s c = true)
    (h : add_child fuel s pa c = some (s', r)) :
    r = Except.ok true ∧
    childrenOf s' pa = childrenOf s pa ++ [c] ∧
    (c ∉ childrenOf s pa → List.count c (childrenOf s' pa) = 1) ∧
    get_parent s' c = pa := by
  have h3 : ¬(has_transform s pa = false) := by simp [hhp]
  have h4 : ¬(has_transform s c = false) := by simp [hhc]
  rw [add_child_success_eq fuel s pa c hpa hc h3 h4] at h
  have h3g : (getSg s pa).isSome = true := by
    revert h3
    unfold has_transform getSg
    cases findk s.scene_graph_transforms pa <;> simp
  have h4g : (getSg s c).isSome = true := by
    revert h4
    unfold has_transform getSg
    cases findk s.scene_graph_transforms c <;> simp
  obtain ⟨pn, hpn⟩ := Option.isSome_iff_exists.mp h3g
  obtain ⟨cn, hcn⟩ := Option.isSome_iff_exists.mp h4g
  have hsgpa : sgOr s pa = pn := by unfold sgOr; rw [hpn]; rfl
  have hsgc : sgOr s c = cn := by unfold sgOr; rw [hcn]; rfl
  have hchs : childrenOf s pa = pn.children := by
    unfold childrenOf
    rw [hsgpa]
  rw [hsgpa] at h
  have hcount : ∀ l : List entity, l = pn.children ++ [c] →
      c ∉ pn.children → List.count c l = 1 := by
    intro l hl hnm
    rw [hl, List.count_append, List.count_eq_zero.mpr hnm]
    simp
  by_cases hpc : pa = c
  · -- parent = child: both updates hit the same record.
    subst hpc
    have hpncn : pn = cn := by
      rw [hpn] at hcn
      exact Option.some.inj hcn
    subst hpncn
    rw [sgOr_setSg_self] at h
    set v1 : scene_graph_component :=
      { pn with children := pn.children ++ [pa] } with hv1
    set v2 : scene_graph_component := { v1 with parent := pa } with hv2
    set s2 : transform_system := setSg (setSg s pa v1) pa v2 with hs2
    cases hrw : recalculate_world_transform fuel s2 pa with
    | none => rw [hrw] at h; cases h
    | some t =>
      rw [hrw] at h
      simp only [Option.map_some'] at h
      have hts : t = s' := congrArg Prod.fst (Option.some.inj h)
      have hg2 : getSg s2 pa = some v2 := getSg_setSg_self _ _ _
      obtain ⟨hev, _, _, _⟩ := recalc_spec fuel s2 pa t hrw
      have hg' : getSg s' pa = some v2 := by
        rw [← hts]
        exact hev.getSg_eq_of_some hg2
      have hch' : childrenOf s' pa = pn.children ++ [pa] := by
        unfold childrenOf sgOr
        rw [hg']
        rfl
      refine ⟨?_, ?_, ?_, ?_⟩
      · cases Option.some.inj h
        rfl
      · rw [hch', hchs]
      · intro hnm
        rw [hchs] at hnm
        exact hcount _ (by rw [hch']) hnm
      · rw [get_parent_eq hc hg',
          if_pos (show (v2 : scene_graph_component).parent ≠ kInvalidEntity from hpa)]
  · -- distinct parent and child
    have hCR : c ≠ pa := fun hcp => hpc hcp.symm
    rw [sgOr_setSg_ne _ _ _ _ hpc, hsgc] at h
    set v1 : scene_graph_component :=
      { pn with children := pn.children ++ [c] } with hv1
    set v2 : scene_graph_component := { cn with parent := pa } with hv2
    set s2 : transform_system := setSg (setSg s pa v1) c v2 with hs2
    cases hrw : recalculate_world_transform fuel s2 pa with
    | none => rw [hrw] at h; cases h
    | some t =>
      rw [hrw] at h
      simp only [Option.map_some'] at h
      have hts : t = s' := congrArg Prod.fst (Option.some.inj h)
      have hg2pa : getSg s2 pa = some v1 := by
        rw [hs2, getSg_setSg_ne _ _ _ _ hCR]
        exact getSg_setSg_self _ _ _
      have hg2c : getSg s2 c = some v2 := getSg_setSg_self _ _ _
      obtain ⟨hev, _, _, _⟩ := recalc_spec fuel s2 pa t hrw
      have hgpa' : getSg s' pa = some v1 := by
        rw [← hts]
        exact hev.getSg_eq_of_some hg2pa
      have hgc' : getSg s' c = some v2 := by
        rw [← hts]
        exact hev.getSg_eq_of_some hg2c
      have hch' : childrenOf s' pa = pn.children ++ [c] := by
        unfold childrenOf sgOr
        rw [hgpa']
        rfl
      refine ⟨?_, ?_, ?_, ?_⟩
      · cases Option.some.inj h
        rfl
      · rw [hch', hchs]
      · intro hnm
        rw [hchs] at hnm
        exact hcount _ (by rw [hch']) hnm
      · rw [get_parent_eq hc hgc',
          if_pos (show (v2 : scene_graph_component).parent ≠ kInvalidEntity from hpa)]

/-- Witness for C4 on the concrete two-node scene before linking. -/
theorem claim_C4_witness :
    childrenOf exPairLinked 1 = childrenOf exPair 1 ++ [2] ∧
    List.count 2 (childrenOf exPairLinked 1) = 1 ∧
    get_parent exPairLinked 2 = 1 := by
  have h := claim_C4 10 exPair 1 2 exPairLinked (Except.ok true)
    (by decide) (by decide) (by rfl) (by rfl) (by rfl)
  exact ⟨h.2.1, h.2.2.1 (by decide), h.2.2.2⟩

/-- Counterexample for C4 as stated: with both preconditions satisfied, a
second `add_child(1, 2)` on the concrete scene appends 2 again, so the child
appears twice, not exactly once. -/
theorem claim_C4_counterexample :
    has_transform exTree 1 = true ∧ has_transform exTree 2 = true ∧
    add_child 10 exTree 1 2 = some (exTreeDup, Except.ok true) ∧
    List.count 2 (childrenOf exTreeDup 1) = 2 ∧
    ¬ List.count 2 (childrenOf exTreeDup 1) = 1 := by
  refine ⟨by rfl, by rfl, by rfl, by rfl, by decide⟩

end transform_system

namespace transform_system

theorem remove_parent_post (fuel : Nat) (s4 s' : transform_system) (c q : entity)
    (lp : Pose) (v3 v4 : scene_graph_component)
    (hg4c : getSg s4 c = some v4) (hv4p : v4.parent = kInvalidEntity)
    (hv4l : v4.local_pose = lp)
    (hg4q : getSg s4 q = some v3)
    (h : recalculate_world_transform fuel s4 c = some s') :
    childrenOf s' q = v3.children ∧
    get_parent s' c = kInvalidEntity ∧
    wPose s' c = some lp := by
  obtain ⟨hev, _, hself, _⟩ := recalc_spec fuel s4 c s' h
  have hsc : sgOr s4 c = v4 := by
    unfold sgOr
    rw [hg4c]
    rfl
  refine ⟨?_, ?_, ?_⟩
  · unfold childrenOf sgOr
    rw [hev.getSg_eq_of_some hg4q]
    rfl
  · by_cases hc0 : c = kInvalidEntity
    · unfold get_parent
      rw [if_pos hc0]
    · rw [get_parent_eq hc0 (hev.getSg_eq_of_some hg4c)]
      rw [if_neg (show ¬(v4.parent ≠ kInvalidEntity) from fun hh => hh hv4p)]
  · rw [hself]
    unfold ruleVal
    rw [hsc, if_pos hv4p, hv4l]

/-- C5: for an entity that currently has a parent, a terminating
`remove_parent` removes every occurrence of the child from the former
parent's children list, clears the child's parent reference (so `get_parent`
returns the invalid entity), and recomputes the child's world pose to be its
local pose. -/
theorem claim_C5 (fuel : Nat) (s : transform_system) (c : entity)
    (cn : scene_graph_component) (s' : transform_system)
    (hcs : getSg s c = some cn) (hp0 : cn.parent ≠ kInvalidEntity)
    (h : remove_parent fuel s c = some s') :
    childrenOf s' cn.parent = (childrenOf s cn.parent).filter (fun x => x ≠ c) ∧
    get_parent s' c = kInvalidEntity ∧
    wPose s' c = some cn.local_pose := by
  simp only [remove_parent] at h
  have hsoc : sgOr s c = cn := by unfold sgOr; rw [hcs]; rfl
  have hens : ensureSg s c = s := ensureSg_of_some s c (by rw [hcs]; rfl)
  rw [hsoc, hens, if_neg hp0] at h
  cases hqn : getSg s cn.parent with
  | none =>
    -- dangling parent reference: `operator[]` default-inserts the parent.
    have hqc : cn.parent ≠ c := by
      intro he
      rw [he, hcs] at hqn
      cases hqn
    have hsoq : sgOr s cn.parent = dfl_scene_graph := by
      unfold sgOr
      rw [hqn]
      rfl
    have hsoq2 : sgOr (ensureSg s cn.parent) cn.parent = dfl_scene_graph := by
      rw [sgOr_ensureSg, hsoq]
    rw [hsoq2] at h
    have hsoc3 : sgOr (setSg (ensureSg s cn.parent) cn.parent
        { dfl_scene_graph with
          children := dfl_scene_graph.children.filter (fun x => x ≠ c) }) c = cn := by
      rw [sgOr_setSg_ne _ _ _ _ hqc, sgOr_ensureSg, hsoc]
    rw [hsoc3] at h
    have hchq : childrenOf s cn.parent = [] := by
      unfold childrenOf
      rw [hsoq]
      rfl
    obtain ⟨h1, h2, h3⟩ := remove_parent_post fuel _ s' c cn.parent cn.local_pose
      { dfl_scene_graph with
        children := dfl_scene_graph.children.filter (fun x => x ≠ c) }
      { cn with parent := kInvalidEntity }
      (getSg_setSg_self _ _ _) rfl rfl
      (by
        rw [getSg_setSg_ne _ _ _ _ (fun he => hqc he.symm)]
        exact getSg_setSg_self _ _ _)
      h
    refine ⟨?_, h2, h3⟩
    rw [h1, hchq]
    rfl
  | some qn =>
    have hqs : (getSg s cn.parent).isSome = true := by rw [hqn]; rfl
    have hensq : ensureSg s cn.parent = s := ensureSg_of_some s cn.parent hqs
    have hsoq : sgOr s cn.parent = qn := by unfold sgOr; rw [hqn]; rfl
    rw [hensq, hsoq] at h
    have hchq : childrenOf s cn.parent = qn.children := by
      unfold childrenOf
      rw [hsoq]
    by_cases hqc : cn.parent = c
    · -- self-parent: both updates hit c's record.
      rw [hqc] at h
      have hqncn : qn = cn := by
        rw [hqc, hcs] at hqn
        exact (Option.some.inj hqn).symm
      rw [sgOr_setSg_self] at h
      obtain ⟨h1, h2, h3⟩ := remove_parent_post fuel _ s' c c cn.local_pose
        { { qn with children := qn.children.filter (fun x => x ≠ c) }
          with parent := kInvalidEntity }
        { { qn with children := qn.children.filter (fun x => x ≠ c) }
          with parent := kInvalidEntity }
        (getSg_setSg_self _ _ _) rfl (by rw [hqncn]) (getSg_setSg_self _ _ _) h
      refine ⟨?_, h2, h3⟩
      have hchq2 : childrenOf s c = qn.children := by
        rw [← hqc]
        exact hchq
      rw [hqc, h1]
      show qn.children.filter (fun x => x ≠ c) = (childrenOf s c).filter (fun x => x ≠ c)
      rw [hchq2]
    · rw [sgOr_setSg_ne _ _ _ _ hqc, hsoc] at h
      obtain ⟨h1, h2, h3⟩ := remove_parent_post fuel _ s' c cn.parent cn.local_pose
        { qn with children := qn.children.filter (fun x => x ≠ c) }
        { cn with parent := kInvalidEntity }
        (getSg_setSg_self _ _ _) rfl rfl
        (by
          rw [getSg_setSg_ne _ _ _ _ (fun he => hqc he.symm)]
          exact getSg_setSg_self _ _ _)
        h
      refine ⟨?_, h2, h3⟩
      rw [h1, hchq]

/-- Witness for C5 on the concrete two-node scene. -/
theorem claim_C5_witness :
    childrenOf exTreeDetached 1 = [] ∧
    get_parent exTreeDetached 2 = kInvalidEntity ∧
    wPose exTreeDetached 2 = some (Pose.base 20) := by
  have h := claim_C5 10 exTree 2
    { e := 2, local_pose := Pose.base 20, local_scale := ⟨0, 0, 0⟩
      parent := 1, children := [] }
    exTreeDetached (by rfl) (by decide) (by rfl)
  exact ⟨h.1, h.2.1, h.2.2⟩

end transform_system

namespace transform_system

/-- C6: `add_child` raises invalid-argument when either entity is the
reserved invalid value or lacks a scene-graph record, and `destroy` raises
invalid-argument when its entity is invalid or lacks a transform record; in
every such case the returned state is exactly the input state (both tables
unchanged). -/
theorem claim_C6 (fuel : Nat) (s : transform_system) (pa c e : entity)
    (hac : pa = kInvalidEntity ∨ c = kInvalidEntity ∨
      has_transform s pa = false ∨ has_transform s c = false)
    (hde : e = kInvalidEntity ∨ has_transform s e = false) :
    (∃ msg, add_child fuel s pa c = some (s, Except.error msg)) ∧
    (∃ msg, destroy fuel s e = some (s, Except.error msg)) := by
  constructor
  · by_cases h1 : pa = kInvalidEntity
    · exact ⟨"parent was invalid", by unfold add_child; rw [if_pos h1]⟩
    by_cases h2 : c = kInvalidEntity
    · exact ⟨"child was invalid", by unfold add_child; rw [if_neg h1, if_pos h2]⟩
    by_cases h3 : has_transform s pa = false
    · exact ⟨"parent has no transform component",
        by unfold add_child; rw [if_neg h1, if_neg h2, if_pos h3]⟩
    have h4 : has_transform s c = false := by
      rcases hac with h | h | h | h
      · exact absurd h h1
      · exact absurd h h2
      · exact absurd h h3
      · exact h
    exact ⟨"child has no transform component",
      by unfold add_child; rw [if_neg h1, if_neg h2, if_neg h3, if_pos h4]⟩
  · by_cases h1 : e = kInvalidEntity
    · exact ⟨"parent was invalid", by unfold destroy; rw [if_pos h1]⟩
    have h2 : has_transform s e = false := by
      rcases hde with h | h
      · exact absurd h h1
      · exact h
    exact ⟨"no component exists for this entity",
      by unfold destroy; rw [if_neg h1, if_pos h2]⟩

/-- Witness for C6 on the empty system. -/
theorem claim_C6_witness :
    (∃ msg, add_child 3 transform_system.empty 0 1 =
      some (transform_system.empty, Except.error msg)) ∧
    (∃ msg, destroy 3 transform_system.empty 0 =
      some (transform_system.empty, Except.error msg)) :=
  claim_C6 3 transform_system.empty 0 1 0 (Or.inl rfl) (Or.inl rfl)

end transform_system

/-- C7 (amended): the generic data-component systems reject a type tag they
do not own with `false` and on a matching tag copy the payload into their
table keyed by the entity (overwriting any prior value); the transform
system's type-erased `create`, however, returns `true` unconditionally and
stores nothing. -/
theorem claim_C7 :
    (∀ (s : ex_system_one) (e : entity) (hash : poly_typeid) (data : physics_component),
      hash ≠ physics_component_typeid → ex_system_one.create s e hash data = (s, false)) ∧
    (∀ (s : ex_system_one) (e : entity) (data : physics_component),
      ex_system_one.create s e physics_component_typeid data =
        ({ components := setk s.components e data }, true) ∧
      findk (ex_system_one.create s e physics_component_typeid data).1.components e =
        some data) ∧
    (∀ (s : ex_system_two) (e : entity) (hash : poly_typeid) (data : render_component),
      hash ≠ render_component_typeid → ex_system_two.create s e hash data = (s, false)) ∧
    (∀ (s : ex_system_two) (e : entity) (data : render_component),
      ex_system_two.create s e render_component_typeid data =
        ({ components := setk s.components e data }, true) ∧
      findk (ex_system_two.create s e render_component_typeid data).1.components e =
        some data) ∧
    (∀ (s : transform_system) (e : entity) (hash : poly_typeid),
      transform_system.create_type_erased s e hash = (s, true)) := by
  refine ⟨?_, ?_, ?_, ?_, fun s e hash => rfl⟩
  · intro s e hash data h
    unfold ex_system_one.create
    rw [if_pos h]
  · intro s e data
    have heq : ex_system_one.create s e physics_component_typeid data =
        ({ components := setk s.components e data }, true) := by
      unfold ex_system_one.create
      rw [if_neg (show ¬(physics_component_typeid ≠ physics_component_typeid)
        from fun hh => hh rfl)]
    refine ⟨heq, ?_⟩
    rw [heq]
    exact findk_setk_self s.components e data
  · intro s e hash data h
    unfold ex_system_two.create
    rw [if_pos h]
  · intro s e data
    have heq : ex_system_two.create s e render_component_typeid data =
        ({ components := setk s.components e data }, true) := by
      unfold ex_system_two.create
      rw [if_neg (show ¬(render_component_typeid ≠ render_component_typeid)
        from fun hh => hh rfl)]
    refine ⟨heq, ?_⟩
    rw [heq]
    exact findk_setk_self s.components e data

/-- Witness for C7 at concrete inputs. -/
theorem claim_C7_witness :
    ex_system_one.create ⟨[]⟩ 4 render_component_typeid ⟨7, 1, 2, 3⟩ = (⟨[]⟩, false) ∧
    findk (ex_system_one.create ⟨[]⟩ 4 physics_component_typeid ⟨7, 1, 2, 3⟩).1.components 4 =
      some ⟨7, 1, 2, 3⟩ :=
  ⟨claim_C7.1 ⟨[]⟩ 4 render_component_typeid ⟨7, 1, 2, 3⟩ (by decide),
   (claim_C7.2.1 ⟨[]⟩ 4 ⟨7, 1, 2, 3⟩).2⟩

/-- Counterexample for C7 as stated: the transform system's type-erased
`create` returns `true` even for the physics-component tag, which the
transform system does not own (it owns the scene-graph and world-transform
tags). -/
theorem claim_C7_counterexample :
    physics_component_typeid ≠ scene_graph_component_typeid ∧
    physics_component_typeid ≠ world_transform_component_typeid ∧
    transform_system.create_type_erased transform_system.empty 5
      physics_component_typeid = (transform_system.empty, true) :=
  ⟨by decide, by decide, rfl⟩

/-- C8 (amended): within the first `2^64 - 1` calls, `entity_manager::create`
returns pairwise-distinct, strictly increasing, nonzero identifiers starting
at 1.  (At the `2^64`-th call the 64-bit counter wraps around.) -/
theorem claim_C8 (i j : Nat) (h1 : 1 ≤ i) (h2 : i < j) (h3 : j < 2 ^ 64) :
    entity_manager.returned_id 1 = 1 ∧
    entity_manager.returned_id i ≠ 0 ∧
    entity_manager.returned_id i < entity_manager.returned_id j ∧
    entity_manager.returned_id i ≠ entity_manager.returned_id j := by
  have hi := entity_manager.returned_id_eq i h1
  have hj := entity_manager.returned_id_eq j (by omega)
  have h1e := entity_manager.returned_id_eq 1 (le_refl 1)
  have hmi : i % 2 ^ 64 = i := Nat.mod_eq_of_lt (lt_trans h2 h3)
  have hmj : j % 2 ^ 64 = j := Nat.mod_eq_of_lt h3
  have hm1 : 1 % 2 ^ 64 = 1 := Nat.mod_eq_of_lt (by norm_num)
  refine ⟨?_, ?_, ?_, ?_⟩
  · rw [h1e, hm1]
  · rw [hi, hmi]
    intro h0
    exact absurd h0 (Nat.one_le_iff_ne_zero.mp h1)
  · rw [hi, hj, hmi, hmj]
    exact h2
  · rw [hi, hj, hmi, hmj]
    intro h0
    exact absurd h0 (Nat.ne_of_lt h2)

/-- Witness for C8 at the first two calls. -/
theorem claim_C8_witness :
    entity_manager.returned_id 1 = 1 ∧
    entity_manager.returned_id 1 ≠ 0 ∧
    entity_manager.returned_id 1 < entity_manager.returned_id 2 ∧
    entity_manager.returned_id 1 ≠ entity_manager.returned_id 2 :=
  claim_C8 1 2 (le_refl 1) (by norm_num) (by norm_num)

/-- Counterexample for C8 as stated: the `uint64_t` counter wraps, so the
`2^64`-th call returns the reserved invalid id 0, and the following call
reuses the id returned by the first call. -/
theorem claim_C8_counterexample :
    entity_manager.returned_id (2 ^ 64) = 0 ∧
    entity_manager.returned_id (2 ^ 64 + 1) = entity_manager.returned_id 1 := by
  have h1 := entity_manager.returned_id_eq (2 ^ 64) (by norm_num)
  have h2 := entity_manager.returned_id_eq (2 ^ 64 + 1) (by norm_num)
  have h3 := entity_manager.returned_id_eq 1 (le_refl 1)
  constructor
  · rw [h1, Nat.mod_self]
  · rw [h2, h3, Nat.add_mod_left]

/-- C9: registering a null system pointer is a no-op, and registering a
system for a type identity already present keeps the first registration
(the duplicate is silently ignored). -/
theorem claim_C9 (m : entity_manager) (ty : poly_typeid) (sys : system_ptr) :
    (sys = 0 → entity_manager.add_system m ty sys = m) ∧
    (∀ v, findk m.systems ty = some v → entity_manager.add_system m ty sys = m) := by
  constructor
  · intro h
    unfold entity_manager.add_system
    rw [if_pos h]
  · intro v hv
    unfold entity_manager.add_system
    by_cases h0 : sys = 0
    · rw [if_pos h0]
    · rw [if_neg h0, hv]

/-- Witness for C9 on a registry that already holds type 3. -/
theorem claim_C9_witness :
    entity_manager.add_system exManager 3 9 = exManager ∧
    entity_manager.add_system exManager 5 0 = exManager :=
  ⟨(claim_C9 exManager 3 9).2 7 (by rfl), (claim_C9 exManager 5 0).1 rfl⟩

namespace transform_system

/-- C10: `remove_parent` on an entity without a scene-graph record does not
fail: `operator[]` default-inserts a fresh record (parent invalid, children
empty), so `has_transform` becomes true, while the world-transform table is
left exactly as it was (the recompute branch is skipped). -/
theorem claim_C10 (fuel : Nat) (s : transform_system) (e : entity)
    (habs : getSg s e = none) :
    ∃ s', remove_parent fuel s e = some s' ∧
      has_transform s' e = true ∧
      getSg s' e = some dfl_scene_graph ∧
      dfl_scene_graph.parent = kInvalidEntity ∧
      dfl_scene_graph.children = [] ∧
      getWt s' e = getWt s e := by
  refine ⟨ensureSg s e, ?_, ?_, ?_, rfl, rfl, getWt_ensureSg s e e⟩
  · simp only [remove_parent]
    rw [if_pos (show (sgOr s e).parent = kInvalidEntity from by
      unfold sgOr; rw [habs]; rfl)]
  · show (getSg (ensureSg s e) e).isSome = true
    rw [getSg_ensureSg_self]
    rfl
  · rw [getSg_ensureSg_self]
    unfold sgOr
    rw [habs]
    rfl

/-- Witness for C10 on the empty system. -/
theorem claim_C10_witness :
    ∃ s', remove_parent 3 transform_system.empty 7 = some s' ∧
      has_transform s' 7 = true ∧
      getSg s' 7 = some dfl_scene_graph ∧
      dfl_scene_graph.parent = kInvalidEntity ∧
      dfl_scene_graph.children = [] ∧
      getWt s' 7 = getWt transform_system.empty 7 :=
  claim_C10 3 transform_system.empty 7 rfl

end transform_system
